import Mathlib

/-!
# coolify-cdn: the content loader and the request resolver

A shallow embedding of `main.go`: `loadJSONFiles`, the walk over the embedded
bundle that fills the `files` and `etags` maps, and `handleRequest`, the
per-request pipeline (CORS headers, preflight, root redirect, health check, table
lookup, ETag revalidation, content serving), followed by the properties of both.

Conventions of the embedding.

* A Go `string` is a Lean `String`, `+` is `++` and `==` is `=`; a Go `[]byte` is a
  `List UInt8`, and `[]byte(s)` the UTF-8 encoding of `s`. Where Go looks at the bytes
  of a string (`hexEscapeNonASCII`), so does the embedding; `strings.HasSuffix` with
  an ASCII suffix is the same on bytes and on characters.
* A Go `map[string]T` is a function `String → Option T`: indexing a missing key
  yields `none` in the two-result form and the zero value in the one-result form.
* The functions of the Go standard library that `main.go` calls (`net/http`,
  `strings`, `path/filepath`, `crypto/md5`, `fmt`, `embed`) are embedded next to
  it, under the names they have in Go, `net/http` as of Go 1.23. What such a
  function computes from text that `main.go` never inspects (dates, entity-tag
  lists, byte-range sets, MIME sniffing, the random multipart boundary) is a field
  of `http.Stdlib`, and every theorem holds for every value of these fields.
* The response is what the handler makes of the server's `http.ResponseWriter`:
  the status, the header map as it stood when the header was written, and the body
  bytes the writer accepted. What the connection adds when it flushes (`Date`,
  `Content-Length`, `Connection`) and the accounting of a declared
  `Content-Length` against the bytes written are outside the embedding.
* The walk of the loader recurses on the directory depth of the bundle, which the
  embedding bounds with a fuel argument; running out of fuel is the result
  `none`, distinct from every result of the Go function, and the theorems on the
  loader show that the fuel suffices on every bundle of bounded depth.
-/

namespace CoolifyCDN

/-! ## Strings and bytes -/

/-- A Go byte slice. -/
abbrev Bytes := List UInt8

/-- The Go conversion `[]byte(s)`: the UTF-8 encoding of `s`. -/
def bytesOf (s : String) : Bytes :=
  s.data.flatMap String.utf8EncodeChar

namespace strings

/-- Go `strings.HasSuffix(s, suffix)`. -/
def HasSuffix (s suffix : String) : Bool :=
  suffix.data.isSuffixOf s.data

/-- Go `strings.HasPrefix(s, p)`. -/
def HasPrefix (s p : String) : Bool :=
  p.data.isPrefixOf s.data

end strings

/-- One hexadecimal digit, lowercase, as `%x` prints it. -/
def hexDigit (n : Nat) : Char :=
  if n < 10 then Char.ofNat (48 + n) else Char.ofNat (87 + n)

/-- The two lowercase hexadecimal digits of a byte, high nibble first. -/
def hexByte (b : UInt8) : List Char :=
  [hexDigit (b.toNat / 16), hexDigit (b.toNat % 16)]

/-- Go `fmt.Sprintf("%x", b)` on a byte array: two lowercase digits per byte. -/
def hexLower (b : Bytes) : String :=
  ⟨b.flatMap hexByte⟩

/-! ## crypto/md5 (RFC 1321), on 32-bit words held as naturals -/

namespace md5

/-- Rotate a 32-bit word left by `s` bits. -/
def rotl (x s : Nat) : Nat :=
  ((x <<< s) ||| (x >>> (32 - s))) % 2 ^ 32

/-- Bitwise complement of a 32-bit word. -/
def not32 (x : Nat) : Nat :=
  x ^^^ 0xffffffff

/-- The per-round left-rotation amounts. -/
def shifts : List Nat :=
  [7, 12, 17, 22, 7, 12, 17, 22, 7, 12, 17, 22, 7, 12, 17, 22,
   5, 9, 14, 20, 5, 9, 14, 20, 5, 9, 14, 20, 5, 9, 14, 20,
   4, 11, 16, 23, 4, 11, 16, 23, 4, 11, 16, 23, 4, 11, 16, 23,
   6, 10, 15, 21, 6, 10, 15, 21, 6, 10, 15, 21, 6, 10, 15, 21]

/-- The sine table: `floor (2^32 * |sin (i + 1)|)`. -/
def table : List Nat :=
  [0xd76aa478, 0xe8c7b756, 0x242070db, 0xc1bdceee, 0xf57c0faf, 0x4787c62a, 0xa8304613, 0xfd469501,
   0x698098d8, 0x8b44f7af, 0xffff5bb1, 0x895cd7be, 0x6b901122, 0xfd987193, 0xa679438e, 0x49b40821,
   0xf61e2562, 0xc040b340, 0x265e5a51, 0xe9b6c7aa, 0xd62f105d, 0x02441453, 0xd8a1e681, 0xe7d3fbc8,
   0x21e1cde6, 0xc33707d6, 0xf4d50d87, 0x455a14ed, 0xa9e3e905, 0xfcefa3f8, 0x676f02d9, 0x8d2a4c8a,
   0xfffa3942, 0x8771f681, 0x6d9d6122, 0xfde5380c, 0xa4beea44, 0x4bdecfa9, 0xf6bb4b60, 0xbebfbc70,
   0x289b7ec6, 0xeaa127fa, 0xd4ef3085, 0x04881d05, 0xd9d4d039, 0xe6db99e5, 0x1fa27cf8, 0xc4ac5665,
   0xf4292244, 0x432aff97, 0xab9423a7, 0xfc93a039, 0x655b59c3, 0x8f0ccc92, 0xffeff47d, 0x85845dd1,
   0x6fa87e4f, 0xfe2ce6e0, 0xa3014314, 0x4e0811a1, 0xf7537e82, 0xbd3af235, 0x2ad7d2bb, 0xeb86d391]

/-- The chaining state `(a, b, c, d)`. -/
structure Digest where
  a : Nat
  b : Nat
  c : Nat
  d : Nat

/-- The initial chaining state. -/
def init : Digest :=
  ⟨0x67452301, 0xefcdab89, 0x98badcfe, 0x10325476⟩

/-- The little-endian bytes of a value, `n` of them. -/
def leBytes : Nat → Nat → List Nat
  | 0, _ => []
  | n + 1, x => x % 256 :: leBytes n (x / 256)

/-- The message followed by the bit `1`, zero padding up to 56 modulo 64, and the
bit length as 8 little-endian bytes. -/
def pad (msg : List Nat) : List Nat :=
  msg ++ 0x80 :: List.replicate ((119 - msg.length % 64) % 64) 0
    ++ leBytes 8 (8 * msg.length % 2 ^ 64)

/-- The `g`-th little-endian 32-bit word of a 64-byte block. -/
def word (block : List Nat) (g : Nat) : Nat :=
  block.getD (4 * g) 0 + 256 * block.getD (4 * g + 1) 0
    + 65536 * block.getD (4 * g + 2) 0 + 16777216 * block.getD (4 * g + 3) 0

/-- One of the 64 operations of a block. -/
def step (block : List Nat) (s : Digest) (i : Nat) : Digest :=
  let f :=
    if i < 16 then (s.b &&& s.c) ||| (not32 s.b &&& s.d)
    else if i < 32 then (s.d &&& s.b) ||| (not32 s.d &&& s.c)
    else if i < 48 then s.b ^^^ s.c ^^^ s.d
    else s.c ^^^ (s.b ||| not32 s.d)
  let g :=
    if i < 16 then i
    else if i < 32 then (5 * i + 1) % 16
    else if i < 48 then (3 * i + 5) % 16
    else (7 * i) % 16
  let t := (f + s.a + table.getD i 0 + word block g) % 2 ^ 32
  ⟨s.d, (s.b + rotl t (shifts.getD i 0)) % 2 ^ 32, s.b, s.c⟩

/-- The compression of one 64-byte block into the chaining state. -/
def block (s : Digest) (blk : List Nat) : Digest :=
  let r := (List.range 64).foldl (step blk) s
  ⟨(s.a + r.a) % 2 ^ 32, (s.b + r.b) % 2 ^ 32, (s.c + r.c) % 2 ^ 32, (s.d + r.d) % 2 ^ 32⟩

/-- The compression of the first `n` 64-byte blocks of a padded message. -/
def blocks : Nat → List Nat → Digest → Digest
  | 0, _, s => s
  | n + 1, bs, s => blocks n (bs.drop 64) (block s (bs.take 64))

/-- Go `md5.Sum(data)`: the 16-byte MD5 checksum of `data`. -/
def Sum (data : Bytes) : Bytes :=
  let p := pad (data.map UInt8.toNat)
  let r := blocks (p.length / 64) p init
  (leBytes 4 r.a ++ leBytes 4 r.b ++ leBytes 4 r.c ++ leBytes 4 r.d).map UInt8.ofNat

end md5

/-! ## net/textproto and net/http: header maps -/

namespace textproto

/-- Go `validHeaderFieldByte`: the token characters of RFC 7230. -/
def validHeaderFieldByte (c : Char) : Bool :=
  c.isAlphanum || "!#$%&\x27*+-.^_\x60|~".data.contains c

/-- The loop of Go `canonicalMIMEHeaderKey`: the first letter and every letter
after a hyphen in upper case, all other letters in lower case. -/
def canonicalLoop : Bool → List Char → List Char
  | _, [] => []
  | upper, c :: cs =>
    let c1 := if upper && c.isLower then c.toUpper
      else if !upper && c.isUpper then c.toLower else c
    c1 :: canonicalLoop (c1 == '-') cs

/-- Go `textproto.CanonicalMIMEHeaderKey`: a key with a byte that is no token
character is returned unchanged. -/
def CanonicalMIMEHeaderKey (s : String) : String :=
  if s.data.all validHeaderFieldByte then ⟨canonicalLoop true s.data⟩ else s

end textproto

namespace http

/-- Go `http.Header`, a `map[string][]string` keyed by canonical names. -/
structure Header where
  vals : String → Option (List String)

namespace Header

/-- The empty header map. -/
def empty : Header :=
  ⟨fun _ => none⟩

/-- Go `h[key]` in its two-result form: is the key present. -/
def has (h : Header) (key : String) : Bool :=
  (h.vals key).isSome

/-- Go `h.get(key)`: the first value under `key` as it is, or the empty string. -/
def get (h : Header) (key : String) : String :=
  match h.vals key with
  | some (v :: _) => v
  | _ => ""

/-- Go `h.Get(key)`: the first value under the canonical form of `key`. -/
def Get (h : Header) (key : String) : String :=
  h.get (textproto.CanonicalMIMEHeaderKey key)

/-- Go `h.Set(key, value)`: replaces the values under the canonical form of `key`. -/
def Set (h : Header) (key value : String) : Header :=
  ⟨fun k => if k = textproto.CanonicalMIMEHeaderKey key then some [value] else h.vals k⟩

/-- Go `h.Del(key)`. -/
def Del (h : Header) (key : String) : Header :=
  ⟨fun k => if k = textproto.CanonicalMIMEHeaderKey key then none else h.vals k⟩

/-- Go `delete(h, key)`, on the key as it is. -/
def delete (h : Header) (key : String) : Header :=
  ⟨fun k => if k = key then none else h.vals k⟩

end Header

/-- Go `url.URL`, the fields the handler reads. -/
structure URL where
  Path : String
  RawQuery : String

/-- Go `http.Request`, the fields the handler and the library read. `RequestURI`
is the request target as the client sent it. -/
structure Request where
  Method : String
  URL : URL
  Header : Header
  RequestURI : String

/-! ### Status codes -/

def StatusOK : Nat := 200
def StatusNoContent : Nat := 204
def StatusPartialContent : Nat := 206
def StatusFound : Nat := 302
def StatusNotModified : Nat := 304
def StatusPreconditionFailed : Nat := 412
def StatusRequestedRangeNotSatisfiable : Nat := 416
def StatusInternalServerError : Nat := 500

/-- Go `http.StatusText`. -/
def StatusText (code : Nat) : String :=
  ([(100, "Continue"), (101, "Switching Protocols"), (102, "Processing"), (103, "Early Hints"),
    (200, "OK"), (201, "Created"), (202, "Accepted"), (203, "Non-Authoritative Information"),
    (204, "No Content"), (205, "Reset Content"), (206, "Partial Content"), (207, "Multi-Status"),
    (208, "Already Reported"), (226, "IM Used"),
    (300, "Multiple Choices"), (301, "Moved Permanently"), (302, "Found"), (303, "See Other"),
    (304, "Not Modified"), (305, "Use Proxy"), (307, "Temporary Redirect"),
    (308, "Permanent Redirect"),
    (400, "Bad Request"), (401, "Unauthorized"), (402, "Payment Required"), (403, "Forbidden"),
    (404, "Not Found"), (405, "Method Not Allowed"), (406, "Not Acceptable"),
    (407, "Proxy Authentication Required"), (408, "Request Timeout"), (409, "Conflict"),
    (410, "Gone"), (411, "Length Required"), (412, "Precondition Failed"),
    (413, "Request Entity Too Large"), (414, "Request URI Too Long"),
    (415, "Unsupported Media Type"), (416, "Requested Range Not Satisfiable"),
    (417, "Expectation Failed"), (418, "I\x27m a teapot"), (421, "Misdirected Request"),
    (422, "Unprocessable Entity"), (423, "Locked"), (424, "Failed Dependency"),
    (425, "Too Early"), (426, "Upgrade Required"), (428, "Precondition Required"),
    (429, "Too Many Requests"), (431, "Request Header Fields Too Large"),
    (451, "Unavailable For Legal Reasons"),
    (500, "Internal Server Error"), (501, "Not Implemented"), (502, "Bad Gateway"),
    (503, "Service Unavailable"), (504, "Gateway Timeout"),
    (505, "HTTP Version Not Supported"), (506, "Variant Also Negotiates"),
    (507, "Insufficient Storage"), (508, "Loop Detected"), (510, "Not Extended"),
    (511, "Network Authentication Required")].lookup code).getD ""

/-! ### The response writer of the server

`handleRequest` runs under `http.ListenAndServe`, so its `http.ResponseWriter` is
the server's own. The embedding keeps what a handler can observe and what the
client receives from it: the live header map, whether the header was written,
the status, the header map as it stood when the header was written, the
number of body bytes written and the body sent. The headers that the connection adds by itself when it flushes (`Date`,
`Content-Length`, `Connection`, `Transfer-Encoding`) are outside of it. -/

/-- The server's response writer for one request. -/
structure ResponseWriter where
  /-- The request being answered. -/
  req : Request
  /-- The map that `w.Header()` returns. -/
  handlerHeader : Header
  /-- Was `WriteHeader` called. -/
  wroteHeader : Bool
  /-- The status code sent. -/
  status : Nat
  /-- The header map sent: the copy taken by `WriteHeader`. -/
  header : Header
  /-- The number of body bytes the handler wrote, Go's `response.written`: the bytes
  written to a HEAD request count, though none of them is sent. -/
  written : Nat
  /-- The body bytes sent. -/
  body : Bytes

/-- The writer the server hands to the handler: nothing set, nothing written. -/
def newResponse (req : Request) : ResponseWriter :=
  ⟨req, Header.empty, false, 0, Header.empty, 0, []⟩

namespace ResponseWriter

/-- Go `w.Header().Set(key, value)`. -/
def setHeader (w : ResponseWriter) (key value : String) : ResponseWriter :=
  { w with handlerHeader := w.handlerHeader.Set key value }

/-- Go `w.WriteHeader(code)` for a final status code: the first call fixes the
status and copies the header map; any later call is ignored, and changes of the
live map after the first call do not reach the response. -/
def WriteHeader (w : ResponseWriter) (code : Nat) : ResponseWriter :=
  if w.wroteHeader then w
  else { w with wroteHeader := true, status := code, header := w.handlerHeader }

/-- Go `bodyAllowedForStatus`. -/
def bodyAllowedForStatus (status : Nat) : Bool :=
  if 100 ≤ status ∧ status ≤ 199 then false
  else if status = 204 then false
  else if status = 304 then false
  else true

/-- Go `w.Write(data)`: writes the header with status 200 if it was not written,
then, unless the status allows no body, counts the data as written and appends
it to the body, unless the request is a HEAD request, whose writes the connection
discards. -/
def Write (w : ResponseWriter) (data : Bytes) : ResponseWriter :=
  let w := if w.wroteHeader then w else w.WriteHeader StatusOK
  if data.isEmpty then w
  else if !bodyAllowedForStatus w.status then w
  else
    let w := { w with written := w.written + data.length }
    if w.req.Method = "HEAD" then w
    else { w with body := w.body ++ data }

end ResponseWriter

end http

/-! ## path/filepath and net/url -/

namespace filepath

/-- Go `filepath.Base` with `/` as the separator: the last element of the path,
trailing slashes removed first; `.` for the empty path, `/` for a path of
slashes only. -/
def Base (path : String) : String :=
  if path = "" then "."
  else
    let stripped := (path.data.reverse.dropWhile (· == '/')).reverse
    let last := (stripped.reverse.takeWhile (· != '/')).reverse
    if last.isEmpty then "/" else ⟨last⟩

end filepath

namespace url

/-- The scan of Go `getScheme`: the length of the scheme that starts the text, `0`
when there is none (`i` is the number of characters already scanned). -/
def schemeLen : Nat → List Char → Nat
  | _, [] => 0
  | i, c :: cs =>
    if c.isAlpha then schemeLen (i + 1) cs
    else if c.isDigit || c == '+' || c == '-' || c == '.' then
      if i = 0 then 0 else schemeLen (i + 1) cs
    else if c == ':' then i
    else 0

/-- Go `getScheme`: the scheme of a raw URL, empty when it has none. -/
def getScheme (rawURL : String) : String :=
  ⟨rawURL.data.take (schemeLen 0 rawURL.data)⟩

end url

/-! ## The standard library behind `http.Redirect` and `http.ServeContent` -/

/-- Go `time.Time`, as nanoseconds since the Unix epoch. -/
abbrev Time := Int

/-- The zero `time.Time`: January 1, year 1, 00:00:00 UTC. -/
def zeroTime : Time := -62135596800000000000

namespace http

/-- Go `condResult`: the outcome of one precondition of RFC 7232. -/
inductive condResult where
  | condNone
  | condTrue
  | condFalse
  deriving DecidableEq

/-- Go `httpRange`: one byte range of a `Range` header. -/
structure httpRange where
  start : Nat
  length : Nat
  deriving DecidableEq

/-- The two errors of Go `parseRange`: `errNoOverlap`, and `invalid range`. -/
inductive rangeError where
  | noOverlap
  | invalid
  deriving DecidableEq

/-- What the standard library computes from text that `main.go` never looks into.
Every theorem below holds for every value of these fields. -/
structure Stdlib where
  /-- Go `modtime.UTC().Format(http.TimeFormat)`. -/
  formatTime : Time → String
  /-- The scan of `checkIfMatch`: does the non-empty `If-Match` value hold `*` or
  an entity tag that matches the `Etag` of the response strongly. -/
  ifMatch : String → String → Bool
  /-- The comparison of `checkIfUnmodifiedSince`, for a non-empty value and a
  modification time that is not zero. -/
  ifUnmodifiedSince : String → Time → condResult
  /-- The scan of `checkIfNoneMatch`: does the non-empty `If-None-Match` value
  hold `*` or an entity tag that matches the `Etag` of the response weakly. -/
  ifNoneMatch : String → String → Bool
  /-- The comparison of `checkIfModifiedSince`, for a non-empty value and a
  modification time that is not zero. -/
  ifModifiedSince : String → Time → condResult
  /-- The test of `checkIfRange`, for a non-empty `If-Range` value, the `Etag` of
  the response and the modification time. -/
  ifRange : String → String → Time → Bool
  /-- The type that `ServeContent` finds for content without a `Content-Type`:
  `mime.TypeByExtension(filepath.Ext(name))`, else `DetectContentType`. -/
  contentType : String → Bytes → String
  /-- Go `parseRange` on a non-empty `Range` value and the content size. -/
  parseRange : String → Nat → Except rangeError (List httpRange)
  /-- The boundary that `multipart.NewWriter` draws at random. -/
  boundary : String
  /-- The `multipart/byteranges` body of several ranges, given the content type,
  the boundary and the content. -/
  multipart : List httpRange → String → String → Bytes → Bytes
  /-- What `Redirect` makes of a target without a scheme: the target itself when
  `url.Parse` rejects it, else the target made absolute against the request path. -/
  relativeTarget : Request → String → String
  /-- The `GODEBUG` setting `httpservecontentkeepheaders=1`. -/
  keepHeaders : Bool

/-- Go `htmlEscape`, the replacer of `&`, `<`, `>`, the double and the single quote. -/
def htmlEscape (s : String) : String :=
  ⟨s.data.flatMap fun c =>
    if c == '&' then "&amp;".data
    else if c == '<' then "&lt;".data
    else if c == '>' then "&gt;".data
    else if c == Char.ofNat 34 then "&#34;".data
    else if c == Char.ofNat 39 then "&#39;".data
    else [c]⟩

/-- Go `hexEscapeNonASCII`: every byte from `0x80` up becomes `%` and its
hexadecimal value; the other bytes are kept. -/
def hexEscapeNonASCII (s : String) : String :=
  ⟨(bytesOf s).flatMap fun b =>
    if 128 ≤ b.toNat then '%' :: Nat.toDigits 16 b.toNat else [Char.ofNat b.toNat]⟩

/-- Go `http.Redirect(w, r, url, code)`. A target with a scheme goes out as it is,
non-ASCII bytes escaped, in `Location`; unless a `Content-Type` is already set, GET
and HEAD requests get an HTML content type and GET requests a short HTML body. -/
def Redirect (lib : Stdlib) (w : ResponseWriter) (r : Request) (target : String) (code : Nat) :
    ResponseWriter :=
  let target := if url.getScheme target = "" then lib.relativeTarget r target else target
  let hadCT := w.handlerHeader.has "Content-Type"
  let w := w.setHeader "Location" (hexEscapeNonASCII target)
  let w :=
    if !hadCT && (r.Method = "GET" || r.Method = "HEAD") then
      w.setHeader "Content-Type" "text/html; charset=utf-8"
    else w
  let w := w.WriteHeader code
  if !hadCT && r.Method = "GET" then
    w.Write (bytesOf
      ("<a href=\"" ++ htmlEscape target ++ "\">" ++ StatusText code ++ "</a>.\n" ++ "\n"))
  else w

/-- Go `http.Error(w, error, code)`. -/
def Error (w : ResponseWriter) (error : String) (code : Nat) : ResponseWriter :=
  let w := { w with handlerHeader := w.handlerHeader.Del "Content-Length" }
  let w := w.setHeader "Content-Type" "text/plain; charset=utf-8"
  let w := w.setHeader "X-Content-Type-Options" "nosniff"
  let w := w.WriteHeader code
  w.Write (bytesOf (error ++ "\n"))

/-- Go `serveError`: the error reply of `ServeContent`, which first drops the
headers a caller may have set for the successful reply. -/
def serveError (lib : Stdlib) (w : ResponseWriter) (text : String) (code : Nat) : ResponseWriter :=
  let h := ["Cache-Control", "Content-Encoding", "Etag", "Last-Modified"].foldl
    (fun h k => if h.has k && !lib.keepHeaders then h.Del k else h) w.handlerHeader
  Error { w with handlerHeader := h } text code

/-- Go `isZeroTime`: the zero time or the Unix epoch. -/
def isZeroTime (t : Time) : Bool :=
  t == zeroTime || t == 0

/-- Go `setLastModified`. -/
def setLastModified (lib : Stdlib) (w : ResponseWriter) (modtime : Time) : ResponseWriter :=
  if !isZeroTime modtime then w.setHeader "Last-Modified" (lib.formatTime modtime) else w

/-- Go `writeNotModified`. -/
def writeNotModified (w : ResponseWriter) : ResponseWriter :=
  let h := w.handlerHeader
  let h := h.delete "Content-Type"
  let h := h.delete "Content-Length"
  let h := h.delete "Content-Encoding"
  let h := if h.Get "Etag" ≠ "" then h.delete "Last-Modified" else h
  ResponseWriter.WriteHeader { w with handlerHeader := h } StatusNotModified

/-- Go `checkIfMatch`. -/
def checkIfMatch (lib : Stdlib) (w : ResponseWriter) (r : Request) : condResult :=
  let im := r.Header.Get "If-Match"
  if im = "" then .condNone
  else if lib.ifMatch im (w.handlerHeader.get "Etag") then .condTrue
  else .condFalse

/-- Go `checkIfUnmodifiedSince`. -/
def checkIfUnmodifiedSince (lib : Stdlib) (r : Request) (modtime : Time) : condResult :=
  let ius := r.Header.Get "If-Unmodified-Since"
  if ius = "" || isZeroTime modtime then .condNone
  else lib.ifUnmodifiedSince ius modtime

/-- Go `checkIfNoneMatch`. -/
def checkIfNoneMatch (lib : Stdlib) (w : ResponseWriter) (r : Request) : condResult :=
  let inm := r.Header.get "If-None-Match"
  if inm = "" then .condNone
  else if lib.ifNoneMatch inm (w.handlerHeader.get "Etag") then .condFalse
  else .condTrue

/-- Go `checkIfModifiedSince`. -/
def checkIfModifiedSince (lib : Stdlib) (r : Request) (modtime : Time) : condResult :=
  if r.Method ≠ "GET" && r.Method ≠ "HEAD" then .condNone
  else
    let ims := r.Header.Get "If-Modified-Since"
    if ims = "" || isZeroTime modtime then .condNone
    else lib.ifModifiedSince ims modtime

/-- Go `checkIfRange`. -/
def checkIfRange (lib : Stdlib) (w : ResponseWriter) (r : Request) (modtime : Time) :
    condResult :=
  if r.Method ≠ "GET" && r.Method ≠ "HEAD" then .condNone
  else
    let ir := r.Header.get "If-Range"
    if ir = "" then .condNone
    else if lib.ifRange ir (w.handlerHeader.Get "Etag") modtime then .condTrue
    else .condFalse

/-- The end of Go `checkPreconditions`: the `Range` value, dropped when `If-Range`
fails. -/
def rangeAfterIfRange (lib : Stdlib) (w : ResponseWriter) (r : Request) (modtime : Time) :
    String :=
  let rangeHeader := r.Header.get "Range"
  if rangeHeader ≠ "" && checkIfRange lib w r modtime = .condFalse then "" else rangeHeader

/-- Go `checkPreconditions`: the writer after it, whether the reply is done (a 304
or a 412 was sent), and the `Range` value still to honour. -/
def checkPreconditions (lib : Stdlib) (w : ResponseWriter) (r : Request) (modtime : Time) :
    ResponseWriter × Bool × String :=
  let ch := checkIfMatch lib w r
  let ch := if ch = .condNone then checkIfUnmodifiedSince lib r modtime else ch
  if ch = .condFalse then (w.WriteHeader StatusPreconditionFailed, true, "")
  else
    match checkIfNoneMatch lib w r with
    | .condFalse =>
      if r.Method = "GET" || r.Method = "HEAD" then (writeNotModified w, true, "")
      else (w.WriteHeader StatusPreconditionFailed, true, "")
    | .condNone =>
      if checkIfModifiedSince lib r modtime = .condFalse then (writeNotModified w, true, "")
      else (w, false, rangeAfterIfRange lib w r modtime)
    | .condTrue => (w, false, rangeAfterIfRange lib w r modtime)

/-- Go `parseRange`: an empty header is no range at all. -/
def parseRange (lib : Stdlib) (s : String) (size : Nat) : Except rangeError (List httpRange) :=
  if s = "" then .ok [] else lib.parseRange s size

/-- Go `sumRangesSize`. -/
def sumRangesSize (ranges : List httpRange) : Nat :=
  (ranges.map fun ra => ra.length).sum

/-- Go `httpRange.contentRange`. -/
def httpRange.contentRange (ra : httpRange) (size : Nat) : String :=
  "bytes " ++ toString ra.start ++ "-" ++ toString ((ra.start : Int) + ra.length - 1) ++ "/"
    ++ toString size

/-- The end of Go `serveContent`, once the status and the bytes to send are known:
`Accept-Ranges`, `Content-Length` if this is a range reply or no content encoding
is set, the header, and the bytes unless the request is a HEAD request. -/
def writeContent (w : ResponseWriter) (r : Request) (ranged : Bool) (code : Nat)
    (sendContent : Bytes) : ResponseWriter :=
  let w := w.setHeader "Accept-Ranges" "bytes"
  let w :=
    if ranged || w.handlerHeader.Get "Content-Encoding" = "" then
      w.setHeader "Content-Length" (toString sendContent.length)
    else w
  let w := w.WriteHeader code
  if r.Method ≠ "HEAD" then w.Write sendContent else w

/-- The part of Go `serveContent` that turns the ranges into a reply: no range is the
whole content with status 200, a single range a 206 with `Content-Range`, several
ranges a 206 with a multipart body; ranges that add up to more than the content
are ignored. -/
def sendRanges (lib : Stdlib) (w : ResponseWriter) (r : Request) (ctype : String)
    (content : Bytes) (ranges : List httpRange) : ResponseWriter :=
  let size := content.length
  let ranges := if sumRangesSize ranges > size then [] else ranges
  match ranges with
  | [] => writeContent w r false StatusOK content
  | [ra] =>
    writeContent (w.setHeader "Content-Range" (ra.contentRange size)) r true
      StatusPartialContent ((content.drop ra.start).take ra.length)
  | _ =>
    writeContent (w.setHeader "Content-Type" ("multipart/byteranges; boundary=" ++ lib.boundary))
      r true StatusPartialContent (lib.multipart ranges ctype lib.boundary content)

/-- The part of Go `serveContent` after the preconditions: the content type, found
from the name or the content unless one is set, then the ranges of the `Range`
value, an unsatisfiable or invalid one being answered with status 416. -/
def serveRange (lib : Stdlib) (w : ResponseWriter) (r : Request) (name : String)
    (content : Bytes) (rangeReq : String) : ResponseWriter :=
  let haveType := w.handlerHeader.has "Content-Type"
  let ctype := if haveType then w.handlerHeader.get "Content-Type" else lib.contentType name content
  let w := if haveType then w else w.setHeader "Content-Type" ctype
  let size := content.length
  match parseRange lib rangeReq size with
  | .ok ranges => sendRanges lib w r ctype content ranges
  | .error .noOverlap =>
    if size = 0 then sendRanges lib w r ctype content []
    else
      serveError lib (w.setHeader "Content-Range" ("bytes */" ++ toString size))
        "invalid range: failed to overlap" StatusRequestedRangeNotSatisfiable
  | .error .invalid => serveError lib w "invalid range" StatusRequestedRangeNotSatisfiable

/-- Go `http.ServeContent(w, r, name, modtime, bytes.NewReader(content))`. -/
def ServeContent (lib : Stdlib) (w : ResponseWriter) (r : Request) (name : String)
    (modtime : Time) (content : Bytes) : ResponseWriter :=
  match checkPreconditions lib (setLastModified lib w modtime) r modtime with
  | (w, true, _) => w
  | (w, false, rangeReq) => serveRange lib w r name content rangeReq

end http

/-! ## main.go -/

/-- Go `map[string]T`. -/
abbrev GoMap (α : Type) := String → Option α

/-- The empty map, `make(map[string]T)`. -/
def GoMap.empty {α : Type} : GoMap α :=
  fun _ => none

/-- Go `m[key] = value`. -/
def GoMap.set {α : Type} (m : GoMap α) (key : String) (value : α) : GoMap α :=
  fun k => if k = key then some value else m k

/-- Go `fs.DirEntry`: the name of an entry of a directory, and whether it is a
directory. -/
structure DirEntry where
  Name : String
  IsDir : Bool
  deriving DecidableEq

/-- Go `embed.FS`, through the two methods the loader calls, each on a path from
the root of the bundle; an error is its message. -/
structure FS where
  ReadDir : String → Except String (List DirEntry)
  ReadFile : String → Except String Bytes

/-- What the loader reads of the process: the embedded bundle `jsonFiles`, and the
clock, as the reading that the `n`-th call of `time.Now()` returns. The
modification time of a record is such a reading, taken when the loader runs at
process start, one per file; the source comment calls it the build time, which
the code does not read. -/
structure World where
  jsonFiles : FS
  now : Nat → Time

/-- Go `fileData`. -/
structure fileData where
  content : Bytes
  modTime : Time
  deriving DecidableEq

/-- What the loader writes: the two maps it is given, the lines it logs and the
number of times it has read the clock. -/
structure LoadState where
  files : GoMap fileData
  etags : GoMap String
  log : List String
  ticks : Nat

/-- The state `main` starts the loader in: both maps empty. -/
def LoadState.empty : LoadState :=
  ⟨GoMap.empty, GoMap.empty, [], 0⟩

/-- The body of the `for _, entry := range entries` loop of `loadJSONFiles`;
`recurse` is `loadJSONFiles` itself, for the call on a subdirectory. The result
is the state left behind and the error returned, `none` when the recursion ran
out of fuel. -/
def loadEntries (env : World)
    (recurse : String → String → LoadState → Option (LoadState × Option String))
    (dir pfx : String) : List DirEntry → LoadState → Option (LoadState × Option String)
  | [], st => some (st, none)
  | entry :: rest, st =>
    let fullPath := dir ++ "/" ++ entry.Name
    if entry.IsDir then
      let newPfx := pfx ++ "/" ++ entry.Name
      match recurse fullPath newPfx st with
      | none => none
      | some (st, some err) => some (st, some err)
      | some (st, none) => loadEntries env recurse dir pfx rest st
    else if strings.HasSuffix entry.Name ".json" then
      match env.jsonFiles.ReadFile fullPath with
      | .error err =>
        loadEntries env recurse dir pfx rest
          { st with log := st.log ++ ["Failed to read embedded file " ++ fullPath ++ ": " ++ err] }
      | .ok content =>
        let urlPath := pfx ++ "/" ++ entry.Name
        let st := { st with
          files := st.files.set urlPath ⟨content, env.now st.ticks⟩
          ticks := st.ticks + 1 }
        let hash := md5.Sum content
        let st := { st with etags := st.etags.set urlPath ("\"" ++ hexLower hash ++ "\"") }
        loadEntries env recurse dir pfx rest st
    else loadEntries env recurse dir pfx rest st

/-- Go `loadJSONFiles(dir, prefix, files, etags)`, the two maps being part of the
state. The first argument is the fuel: the number of directory levels the walk may
still open. -/
def loadJSONFiles (env : World) :
    Nat → String → String → LoadState → Option (LoadState × Option String)
  | 0, _, _, _ => none
  | fuel + 1, dir, pfx, st =>
    match env.jsonFiles.ReadDir dir with
    | .error err => some (st, some err)
    | .ok entries => loadEntries env (loadJSONFiles env fuel) dir pfx entries st

/-- The base domain as `main` reads it from `BASE_FQDN`, the value of an unset
variable being the empty string. -/
def baseFQDNOf (envValue : String) : String :=
  if envValue = "" then "coolify.io" else envValue

open http

/-- Go `handleRequest(w, r, baseFQDN, files, etags)`. -/
def handleRequest (lib : Stdlib) (w : ResponseWriter) (r : Request) (baseFQDN : String)
    (files : GoMap fileData) (etags : GoMap String) : ResponseWriter :=
  -- Set CORS headers
  let w := w.setHeader "Access-Control-Allow-Origin" "*"
  let w := w.setHeader "Access-Control-Allow-Methods" "GET, HEAD, OPTIONS"
  let w := w.setHeader "Access-Control-Allow-Headers" "Origin, X-Requested-With, Content-Type, Accept"
  -- Handle OPTIONS requests for CORS preflight
  if r.Method = "OPTIONS" then w.WriteHeader StatusNoContent
  -- Handle root path redirect
  else if r.URL.Path = "/" then Redirect lib w r ("https://" ++ baseFQDN) StatusFound
  -- Handle health check
  else if r.URL.Path = "/health" then
    let w := w.setHeader "Content-Type" "text/plain"
    let w := w.WriteHeader StatusOK
    w.Write (bytesOf "healthy\n")
  else
    -- Check if file exists
    match files r.URL.Path with
    | none => Redirect lib w r ("https://" ++ baseFQDN ++ r.RequestURI) StatusFound
    | some fileData =>
      -- Set content type for JSON files
      let w :=
        if strings.HasSuffix r.URL.Path ".json" then w.setHeader "Content-Type" "application/json"
        else w
      -- Set cache control
      let w := w.setHeader "Cache-Control" "public, must-revalidate"
      -- Handle ETag caching manually for embedded files
      let etag := (etags r.URL.Path).getD ""
      let w := w.setHeader "ETag" etag
      -- Check If-None-Match header
      if r.Header.Get "If-None-Match" = etag then
        let w := w.WriteHeader StatusNotModified
        w.setHeader "ETag" etag
      else
        ServeContent lib w r (filepath.Base r.URL.Path) fileData.modTime fileData.content

/-- The response to a request: what `handleRequest` leaves in the writer that the
server hands to it for this request, as the closure registered by `main` calls it. -/
def serve (lib : http.Stdlib) (r : http.Request) (baseFQDN : String)
    (files : GoMap fileData) (etags : GoMap String) : http.ResponseWriter :=
  handleRequest lib (http.newResponse r) r baseFQDN files etags

/-! ## Specification vocabulary -/

/-- Is a header of this name set in the map, whatever the case of the name. -/
def http.Header.isSet (h : http.Header) (key : String) : Bool :=
  h.has (textproto.CanonicalMIMEHeaderKey key)

/-- The three CORS headers stand in the map with the values `handleRequest` gives
them, and no other value beside. -/
def HasCORS (h : http.Header) : Prop :=
  h.vals "Access-Control-Allow-Origin" = some ["*"]
  ∧ h.vals "Access-Control-Allow-Methods" = some ["GET, HEAD, OPTIONS"]
  ∧ h.vals "Access-Control-Allow-Headers"
      = some ["Origin, X-Requested-With, Content-Type, Accept"]

/-- A header name other than the three CORS names. -/
abbrev OtherKey (k : String) : Prop :=
  k ≠ "Access-Control-Allow-Origin" ∧ k ≠ "Access-Control-Allow-Methods"
    ∧ k ≠ "Access-Control-Allow-Headers"

/-- The writer carries the CORS headers: in its live map, and in the map that went
out if the header was written. -/
def KeepsCORS (w : http.ResponseWriter) : Prop :=
  HasCORS w.handlerHeader ∧ (w.wroteHeader = true → HasCORS w.header)

/-- The fingerprints follow the documents: a path without a document has no
fingerprint, and a path with a document ends in `.json` and has, as its
fingerprint, the MD5 checksum of the content in lowercase hexadecimal digits
between double quotes. -/
def LoadInv (st : LoadState) : Prop :=
  ∀ k, match st.files k with
    | none => st.etags k = none
    | some fd =>
      strings.HasSuffix k ".json" = true
        ∧ st.etags k = some ("\"" ++ hexLower (md5.Sum fd.content) ++ "\"")

/-- Is every character of the text an ASCII character. -/
def isASCII (s : String) : Bool :=
  s.data.all fun c => c.toNat < 128

/-- The path of the directory `d1/.../dn` below `dir`, built the way the walk builds
it: one `"/" ++ name` at a time. With the empty text for `dir` it is the URL
prefix `/d1/.../dn`. -/
def joinDir (dir : String) (ds : List String) : String :=
  ds.foldl (fun p d => p ++ "/" ++ d) dir

/-- The directories `d1, d2, ...` are nested below `dir` in the bundle: `d1` is listed
as a directory by `dir`, `d2` by `dir/d1`, and so on. -/
def IsDirAt (fs : FS) : String → List String → Prop
  | _, [] => True
  | dir, d :: ds =>
    (∃ es, fs.ReadDir dir = .ok es ∧ (⟨d, true⟩ : DirEntry) ∈ es) ∧ IsDirAt fs (dir ++ "/" ++ d) ds

/-- The bundle holds a file `name` in the directory `d1/.../dn` below `dir`. -/
def IsFileAt (fs : FS) : String → List String → String → Prop
  | dir, [], name => ∃ es, fs.ReadDir dir = .ok es ∧ (⟨name, false⟩ : DirEntry) ∈ es
  | dir, d :: ds, name =>
    (∃ es, fs.ReadDir dir = .ok es ∧ (⟨d, true⟩ : DirEntry) ∈ es)
      ∧ IsFileAt fs (dir ++ "/" ++ d) ds name

/-- The directories `d1, d2, ...` are nested below `dir`, the first of them being one
of the entries `es`. -/
def DirIn (fs : FS) (dir : String) (es : List DirEntry) : List String → Prop
  | [] => False
  | d :: ds => (⟨d, true⟩ : DirEntry) ∈ es ∧ IsDirAt fs (dir ++ "/" ++ d) ds

/-- The file `name` lies in `d1/.../dn` below `dir`, the first step, `d1` or the file
itself, being one of the entries `es`. -/
def FileIn (fs : FS) (dir : String) (es : List DirEntry) : List String → String → Prop
  | [], name => (⟨name, false⟩ : DirEntry) ∈ es
  | d :: ds, name => (⟨d, true⟩ : DirEntry) ∈ es ∧ IsFileAt fs (dir ++ "/" ++ d) ds name

/-- What a walk over the entries `es` of `dir` does to the documents, from the state
`st` to the state `st1` with the result `res`. -/
structure LoopSpec (env : World) (dir pfx : String) (es : List DirEntry)
    (st st1 : LoadState) (res : Option String) : Prop where
  /-- An error returned is the read error of a directory below. -/
  error_of_dir : ∀ e, res = some e →
    ∃ ds, DirIn env.jsonFiles dir es ds ∧ env.jsonFiles.ReadDir (joinDir dir ds) = .error e
  /-- Without an error, every directory below was read. -/
  dirs_read : res = none → ∀ ds, DirIn env.jsonFiles dir es ds →
    ∃ l, env.jsonFiles.ReadDir (joinDir dir ds) = .ok l
  /-- Without an error, every `.json` file below that reads has a document. -/
  loaded : res = none → ∀ ds name c, FileIn env.jsonFiles dir es ds name →
    strings.HasSuffix name ".json" = true →
    env.jsonFiles.ReadFile (joinDir dir ds ++ "/" ++ name) = .ok c →
    st1.files (joinDir pfx ds ++ "/" ++ name) ≠ none
  /-- A document was there before, or is the content of a `.json` file below. -/
  sound : ∀ k fd, st1.files k = some fd → st.files k = some fd ∨
    ∃ ds name, FileIn env.jsonFiles dir es ds name ∧ strings.HasSuffix name ".json" = true
      ∧ k = joinDir pfx ds ++ "/" ++ name
      ∧ env.jsonFiles.ReadFile (joinDir dir ds ++ "/" ++ name) = .ok fd.content
  /-- No document is removed. -/
  mono : ∀ k, st.files k ≠ none → st1.files k ≠ none

/-- What a walk of `dir` does to the documents, from the state `st` to the state
`st1` with the result `res`. -/
structure WalkSpec (env : World) (dir pfx : String) (st st1 : LoadState)
    (res : Option String) : Prop where
  /-- An error returned is the read error of `dir` or of a directory below. -/
  error_of_dir : ∀ e, res = some e →
    ∃ ds, IsDirAt env.jsonFiles dir ds ∧ env.jsonFiles.ReadDir (joinDir dir ds) = .error e
  /-- Without an error, `dir` and every directory below were read. -/
  dirs_read : res = none → ∀ ds, IsDirAt env.jsonFiles dir ds →
    ∃ l, env.jsonFiles.ReadDir (joinDir dir ds) = .ok l
  /-- Without an error, every `.json` file below that reads has a document. -/
  loaded : res = none → ∀ ds name c, IsFileAt env.jsonFiles dir ds name →
    strings.HasSuffix name ".json" = true →
    env.jsonFiles.ReadFile (joinDir dir ds ++ "/" ++ name) = .ok c →
    st1.files (joinDir pfx ds ++ "/" ++ name) ≠ none
  /-- A document was there before, or is the content of a `.json` file below. -/
  sound : ∀ k fd, st1.files k = some fd → st.files k = some fd ∨
    ∃ ds name, IsFileAt env.jsonFiles dir ds name ∧ strings.HasSuffix name ".json" = true
      ∧ k = joinDir pfx ds ++ "/" ++ name
      ∧ env.jsonFiles.ReadFile (joinDir dir ds ++ "/" ++ name) = .ok fd.content
  /-- No document is removed. -/
  mono : ∀ k, st.files k ≠ none → st1.files k ≠ none

/-- The bundle below `dir` is a tree of fewer than `n` levels of directories: a walk
that may open `n` levels never needs another one. A directory that cannot be
read has nothing below it. -/
def depthWithin (fs : FS) : Nat → String → Bool
  | 0, _ => false
  | n + 1, dir =>
    match fs.ReadDir dir with
    | .error _ => true
    | .ok es => es.all fun e => !e.IsDir || depthWithin fs n (dir ++ "/" ++ e.Name)

/-- Every read of the walk below `dir` succeeds, down to `n` levels: each directory
lists, and each file whose name ends in `.json` reads. -/
def readsSucceed (fs : FS) : Nat → String → Bool
  | 0, _ => true
  | n + 1, dir =>
    match fs.ReadDir dir with
    | .error _ => false
    | .ok es => es.all fun e =>
      if e.IsDir then readsSucceed fs n (dir ++ "/" ++ e.Name)
      else !strings.HasSuffix e.Name ".json"
        || (match fs.ReadFile (dir ++ "/" ++ e.Name) with
            | .ok _ => true
            | .error _ => false)

/-! ## Concrete inputs -/

/-- A standard library for concrete runs: no precondition ever fails, every `Range`
header is invalid, relative redirect targets are kept. -/
def sampleStdlib : http.Stdlib where
  formatTime := fun _ => "Thu, 01 Jan 2026 00:00:00 GMT"
  ifMatch := fun _ _ => true
  ifUnmodifiedSince := fun _ _ => .condTrue
  ifNoneMatch := fun _ _ => false
  ifModifiedSince := fun _ _ => .condTrue
  ifRange := fun _ _ _ => true
  contentType := fun _ _ => "application/octet-stream"
  parseRange := fun _ _ => .error .invalid
  boundary := "boundary"
  multipart := fun _ _ _ _ => []
  relativeTarget := fun _ target => target
  keepHeaders := false

/-- The bytes of the document of the sample bundle. -/
def sampleContent : Bytes :=
  bytesOf "\x7b\"x\":1\x7d"

/-- The sample bundle: `json/a/b.json` with the sample content, and `json/README.md`. -/
def sampleBundle : FS where
  ReadDir := fun p =>
    if p = "json" then .ok [⟨"README.md", false⟩, ⟨"a", true⟩]
    else if p = "json/a" then .ok [⟨"b.json", false⟩]
    else .error ("open " ++ p ++ ": file does not exist")
  ReadFile := fun p =>
    if p = "json/a/b.json" then .ok sampleContent
    else if p = "json/README.md" then .ok (bytesOf "docs")
    else .error ("open " ++ p ++ ": file does not exist")

/-- The sample bundle with a second document, `json/a/c.json`, that cannot be read. -/
def brokenFileBundle : FS where
  ReadDir := fun p =>
    if p = "json" then .ok [⟨"a", true⟩]
    else if p = "json/a" then .ok [⟨"b.json", false⟩, ⟨"c.json", false⟩]
    else .error ("open " ++ p ++ ": file does not exist")
  ReadFile := fun p =>
    if p = "json/a/b.json" then .ok sampleContent
    else .error ("read " ++ p ++ ": input/output error")

/-- A world around a bundle, with a clock that advances by one at each reading. -/
def sampleWorld (fs : FS) : World where
  jsonFiles := fs
  now := fun n => 1767225600000000000 + n

/-- The fingerprint of the sample content. -/
def sampleETag : String :=
  "\"" ++ hexLower (md5.Sum sampleContent) ++ "\""

/-- The state the loader leaves behind on the sample bundle. -/
def sampleLoaded : LoadState where
  files := GoMap.empty.set "/a/b.json" ⟨sampleContent, 1767225600000000000⟩
  etags := GoMap.empty.set "/a/b.json" sampleETag
  log := []
  ticks := 1

/-- A request with the given method, path, query string and headers. -/
def sampleRequest (method path query : String) (header : http.Header) : http.Request where
  Method := method
  URL := ⟨path, query⟩
  Header := header
  RequestURI := if query = "" then path else path ++ "?" ++ query

/-- A table that has the two special paths among its keys. -/
def shadowFiles : GoMap fileData :=
  (GoMap.empty.set "/" ⟨bytesOf "root", 1⟩).set "/health" ⟨bytesOf "sick", 1⟩

/-- The fingerprints of `shadowFiles`. -/
def shadowETags : GoMap String :=
  (GoMap.empty.set "/" "\"r\"").set "/health" "\"h\""

/-! ## Lemmas: text -/

theorem utf8EncodeChar_ascii (c : Char) (h : c.toNat < 128) :
    String.utf8EncodeChar c = [UInt8.ofNat c.toNat] := by
  have hv : c.val ≤ 0x7f := by
    show c.val.toNat ≤ 127
    have : c.val.toNat = c.toNat := rfl
    omega
  simp only [String.utf8EncodeChar, hv, if_true]
  rfl

theorem uint8_ofNat_toNat (n : Nat) (h : n < 128) : (UInt8.ofNat n).toNat = n := by
  show n % 256 = n
  omega

theorem hexEscape_ascii_list (l : List Char) (h : ∀ c ∈ l, c.toNat < 128) :
    ((l.flatMap String.utf8EncodeChar).flatMap fun b =>
      if 128 ≤ b.toNat then '%' :: Nat.toDigits 16 b.toNat else [Char.ofNat b.toNat]) = l := by
  induction l with
  | nil => rfl
  | cons c cs ih =>
    have hc : c.toNat < 128 := h c (List.mem_cons_self _ _)
    have hcs : ∀ c ∈ cs, c.toNat < 128 := fun x hx => h x (List.mem_cons_of_mem _ hx)
    simp only [List.flatMap_cons, List.flatMap_append, ih hcs, utf8EncodeChar_ascii c hc,
      List.flatMap_nil, List.append_nil, uint8_ofNat_toNat _ hc]
    have : ¬ 128 ≤ c.toNat := by omega
    simp [this]

/-- An ASCII text passes through `hexEscapeNonASCII` unchanged. -/
theorem hexEscapeNonASCII_of_isASCII (s : String) (h : isASCII s = true) :
    hexEscapeNonASCII s = s := by
  unfold hexEscapeNonASCII bytesOf
  unfold isASCII at h
  rw [hexEscape_ascii_list s.data (by simpa using h)]

theorem isASCII_append (a b : String) : isASCII (a ++ b) = (isASCII a && isASCII b) := by
  simp [isASCII, String.data_append, List.all_append]

/-- A target that starts with `https://` has a scheme, so `Redirect` keeps it. -/
theorem getScheme_https (x : String) : url.getScheme ("https://" ++ x) = "https" := by
  simp [url.getScheme, url.schemeLen, String.data_append]

/-! ## Lemmas: canonical header names -/

section canonical

open textproto

@[simp] theorem canonical_allow_origin :
    CanonicalMIMEHeaderKey "Access-Control-Allow-Origin" = "Access-Control-Allow-Origin" := by
  decide
@[simp] theorem canonical_allow_methods :
    CanonicalMIMEHeaderKey "Access-Control-Allow-Methods" = "Access-Control-Allow-Methods" := by
  decide
@[simp] theorem canonical_allow_headers :
    CanonicalMIMEHeaderKey "Access-Control-Allow-Headers" = "Access-Control-Allow-Headers" := by
  decide
@[simp] theorem canonical_content_type :
    CanonicalMIMEHeaderKey "Content-Type" = "Content-Type" := by decide
@[simp] theorem canonical_cache_control :
    CanonicalMIMEHeaderKey "Cache-Control" = "Cache-Control" := by decide
@[simp] theorem canonical_ETag : CanonicalMIMEHeaderKey "ETag" = "Etag" := by decide
@[simp] theorem canonical_Etag : CanonicalMIMEHeaderKey "Etag" = "Etag" := by decide
@[simp] theorem canonical_location : CanonicalMIMEHeaderKey "Location" = "Location" := by decide
@[simp] theorem canonical_last_modified :
    CanonicalMIMEHeaderKey "Last-Modified" = "Last-Modified" := by decide
@[simp] theorem canonical_content_range :
    CanonicalMIMEHeaderKey "Content-Range" = "Content-Range" := by decide
@[simp] theorem canonical_accept_ranges :
    CanonicalMIMEHeaderKey "Accept-Ranges" = "Accept-Ranges" := by decide
@[simp] theorem canonical_content_length :
    CanonicalMIMEHeaderKey "Content-Length" = "Content-Length" := by decide
@[simp] theorem canonical_content_encoding :
    CanonicalMIMEHeaderKey "Content-Encoding" = "Content-Encoding" := by decide
@[simp] theorem canonical_nosniff :
    CanonicalMIMEHeaderKey "X-Content-Type-Options" = "X-Content-Type-Options" := by decide
@[simp] theorem canonical_if_none_match :
    CanonicalMIMEHeaderKey "If-None-Match" = "If-None-Match" := by decide
@[simp] theorem canonical_if_match : CanonicalMIMEHeaderKey "If-Match" = "If-Match" := by decide
@[simp] theorem canonical_if_unmodified_since :
    CanonicalMIMEHeaderKey "If-Unmodified-Since" = "If-Unmodified-Since" := by decide
@[simp] theorem canonical_if_modified_since :
    CanonicalMIMEHeaderKey "If-Modified-Since" = "If-Modified-Since" := by decide

@[simp] theorem canonical_if_range : CanonicalMIMEHeaderKey "If-Range" = "If-Range" := by decide
@[simp] theorem canonical_range : CanonicalMIMEHeaderKey "Range" = "Range" := by decide

end canonical

/-- A header that is not set reads as the empty text. -/
theorem Get_of_not_isSet (h : Header) (k : String) (hk : h.isSet k = false) : h.Get k = "" := by
  unfold Header.isSet Header.has at hk
  unfold Header.Get Header.get
  cases hv : h.vals (textproto.CanonicalMIMEHeaderKey k) with
  | none => rfl
  | some l => simp [hv] at hk

/-! ## Lemmas: the response writer, field by field -/

namespace http.ResponseWriter

@[simp] theorem setHeader_handlerHeader (w : ResponseWriter) (k v : String) :
    (w.setHeader k v).handlerHeader = w.handlerHeader.Set k v := rfl
@[simp] theorem setHeader_header (w : ResponseWriter) (k v : String) :
    (w.setHeader k v).header = w.header := rfl
@[simp] theorem setHeader_status (w : ResponseWriter) (k v : String) :
    (w.setHeader k v).status = w.status := rfl
@[simp] theorem setHeader_wroteHeader (w : ResponseWriter) (k v : String) :
    (w.setHeader k v).wroteHeader = w.wroteHeader := rfl
@[simp] theorem setHeader_body (w : ResponseWriter) (k v : String) :
    (w.setHeader k v).body = w.body := rfl
@[simp] theorem setHeader_written (w : ResponseWriter) (k v : String) :
    (w.setHeader k v).written = w.written := rfl
@[simp] theorem setHeader_req (w : ResponseWriter) (k v : String) :
    (w.setHeader k v).req = w.req := rfl

@[simp] theorem WriteHeader_handlerHeader (w : ResponseWriter) (code : Nat) :
    (w.WriteHeader code).handlerHeader = w.handlerHeader := by
  unfold WriteHeader; split <;> rfl
@[simp] theorem WriteHeader_wroteHeader (w : ResponseWriter) (code : Nat) :
    (w.WriteHeader code).wroteHeader = true := by
  unfold WriteHeader; split <;> simp_all
@[simp] theorem WriteHeader_body (w : ResponseWriter) (code : Nat) :
    (w.WriteHeader code).body = w.body := by
  unfold WriteHeader; split <;> rfl
@[simp] theorem WriteHeader_written (w : ResponseWriter) (code : Nat) :
    (w.WriteHeader code).written = w.written := by
  unfold WriteHeader; split <;> rfl
@[simp] theorem WriteHeader_req (w : ResponseWriter) (code : Nat) :
    (w.WriteHeader code).req = w.req := by
  unfold WriteHeader; split <;> rfl
theorem WriteHeader_header (w : ResponseWriter) (code : Nat) :
    (w.WriteHeader code).header = if w.wroteHeader then w.header else w.handlerHeader := by
  unfold WriteHeader; split <;> rfl
theorem WriteHeader_status (w : ResponseWriter) (code : Nat) :
    (w.WriteHeader code).status = if w.wroteHeader then w.status else code := by
  unfold WriteHeader; split <;> rfl

@[simp] theorem Write_handlerHeader (w : ResponseWriter) (data : Bytes) :
    (w.Write data).handlerHeader = w.handlerHeader := by
  unfold Write; simp only []; split_ifs <;> simp
@[simp] theorem Write_wroteHeader (w : ResponseWriter) (data : Bytes) :
    (w.Write data).wroteHeader = true := by
  unfold Write; simp only []; split_ifs <;> simp_all
@[simp] theorem Write_req (w : ResponseWriter) (data : Bytes) :
    (w.Write data).req = w.req := by
  unfold Write; simp only []; split_ifs <;> simp
theorem Write_header (w : ResponseWriter) (data : Bytes) :
    (w.Write data).header = if w.wroteHeader then w.header else w.handlerHeader := by
  unfold Write; simp only []; split_ifs <;> simp_all [WriteHeader_header]
theorem Write_status (w : ResponseWriter) (data : Bytes) :
    (w.Write data).status = if w.wroteHeader then w.status else 200 := by
  unfold Write; simp only []; split_ifs <;> simp_all [WriteHeader_status, StatusOK]

/-- What a write adds to the body once the header went out. -/
theorem Write_body_of_wrote (w : ResponseWriter) (data : Bytes) (h : w.wroteHeader = true) :
    (w.Write data).body =
      if bodyAllowedForStatus w.status = true ∧ w.req.Method ≠ "HEAD" then w.body ++ data
      else w.body := by
  unfold Write
  simp only [h, if_true]
  by_cases hd : data.isEmpty = true
  · have : data = [] := by simpa using hd
    subst this
    simp
  · by_cases hb : bodyAllowedForStatus w.status = true
    · by_cases hh : w.req.Method = "HEAD" <;> simp [hd, hb, hh]
    · simp [hd, hb]

/-- What a write adds to the count of bytes written once the header went out. -/
theorem Write_written_of_wrote (w : ResponseWriter) (data : Bytes) (h : w.wroteHeader = true) :
    (w.Write data).written =
      if bodyAllowedForStatus w.status = true then w.written + data.length else w.written := by
  unfold Write
  simp only [h, if_true]
  by_cases hd : data.isEmpty = true
  · have : data = [] := by simpa using hd
    subst this
    simp
  · by_cases hb : bodyAllowedForStatus w.status = true
    · by_cases hh : w.req.Method = "HEAD" <;> simp [hd, hb, hh]
    · simp [hd, hb]

end http.ResponseWriter

/-! ## Lemmas: the CORS headers survive the library -/

theorem HasCORS_Set {h : Header} (k v : String) (hk : OtherKey (textproto.CanonicalMIMEHeaderKey k))
    (hc : HasCORS h) : HasCORS (h.Set k v) := by
  obtain ⟨h1, h2, h3⟩ := hk
  obtain ⟨c1, c2, c3⟩ := hc
  refine ⟨?_, ?_, ?_⟩ <;> simp only [Header.Set]
  · rw [if_neg (Ne.symm h1)]; exact c1
  · rw [if_neg (Ne.symm h2)]; exact c2
  · rw [if_neg (Ne.symm h3)]; exact c3

theorem HasCORS_Del {h : Header} (k : String) (hk : OtherKey (textproto.CanonicalMIMEHeaderKey k))
    (hc : HasCORS h) : HasCORS (h.Del k) := by
  obtain ⟨h1, h2, h3⟩ := hk
  obtain ⟨c1, c2, c3⟩ := hc
  refine ⟨?_, ?_, ?_⟩ <;> simp only [Header.Del]
  · rw [if_neg (Ne.symm h1)]; exact c1
  · rw [if_neg (Ne.symm h2)]; exact c2
  · rw [if_neg (Ne.symm h3)]; exact c3

theorem HasCORS_delete {h : Header} (k : String) (hk : OtherKey k)
    (hc : HasCORS h) : HasCORS (h.delete k) := by
  obtain ⟨h1, h2, h3⟩ := hk
  obtain ⟨c1, c2, c3⟩ := hc
  refine ⟨?_, ?_, ?_⟩ <;> simp only [Header.delete]
  · rw [if_neg (Ne.symm h1)]; exact c1
  · rw [if_neg (Ne.symm h2)]; exact c2
  · rw [if_neg (Ne.symm h3)]; exact c3

theorem KeepsCORS_setHeader {w : ResponseWriter} (k v : String)
    (hk : OtherKey (textproto.CanonicalMIMEHeaderKey k)) (hw : KeepsCORS w) :
    KeepsCORS (w.setHeader k v) :=
  ⟨HasCORS_Set k v hk hw.1, hw.2⟩

theorem KeepsCORS_WriteHeader {w : ResponseWriter} (code : Nat) (hw : KeepsCORS w) :
    KeepsCORS (w.WriteHeader code) := by
  refine ⟨by simpa using hw.1, fun _ => ?_⟩
  rw [ResponseWriter.WriteHeader_header]
  split
  · exact hw.2 (by assumption)
  · exact hw.1

theorem KeepsCORS_Write {w : ResponseWriter} (data : Bytes) (hw : KeepsCORS w) :
    KeepsCORS (w.Write data) := by
  refine ⟨by simpa using hw.1, fun _ => ?_⟩
  rw [ResponseWriter.Write_header]
  split
  · exact hw.2 (by assumption)
  · exact hw.1

theorem KeepsCORS_withHeader {w : ResponseWriter} (h : Header) (hh : HasCORS h)
    (hw : KeepsCORS w) : KeepsCORS { w with handlerHeader := h } :=
  ⟨hh, hw.2⟩

theorem KeepsCORS_Redirect (lib : Stdlib) {w : ResponseWriter} (r : Request) (target : String)
    (code : Nat) (hw : KeepsCORS w) :
    KeepsCORS (Redirect lib w r target code) ∧ (Redirect lib w r target code).wroteHeader = true := by
  unfold Redirect
  simp only []
  have h1 : ∀ t, KeepsCORS (w.setHeader "Location" t) := fun t =>
    KeepsCORS_setHeader _ _ (by decide) hw
  split_ifs <;>
    first
    | exact ⟨KeepsCORS_Write _ (KeepsCORS_WriteHeader _
        (KeepsCORS_setHeader _ _ (by decide) (h1 _))), by simp⟩
    | exact ⟨KeepsCORS_Write _ (KeepsCORS_WriteHeader _ (h1 _)), by simp⟩
    | exact ⟨KeepsCORS_WriteHeader _ (KeepsCORS_setHeader _ _ (by decide) (h1 _)), by simp⟩
    | exact ⟨KeepsCORS_WriteHeader _ (h1 _), by simp⟩

theorem KeepsCORS_Error {w : ResponseWriter} (text : String) (code : Nat) (hw : KeepsCORS w) :
    KeepsCORS (Error w text code) ∧ (Error w text code).wroteHeader = true := by
  unfold Error
  refine ⟨KeepsCORS_Write _ (KeepsCORS_WriteHeader _ (KeepsCORS_setHeader _ _ (by decide)
    (KeepsCORS_setHeader _ _ (by decide)
      (KeepsCORS_withHeader _ (HasCORS_Del _ (by decide) hw.1) hw)))), by simp⟩

theorem HasCORS_dropStep (keep : Bool) {h : Header} (k : String)
    (hk : OtherKey (textproto.CanonicalMIMEHeaderKey k)) (hc : HasCORS h) :
    HasCORS (if h.has k && !keep then h.Del k else h) := by
  split
  · exact HasCORS_Del k hk hc
  · exact hc

theorem KeepsCORS_serveError (lib : Stdlib) {w : ResponseWriter} (text : String) (code : Nat)
    (hw : KeepsCORS w) :
    KeepsCORS (serveError lib w text code) ∧ (serveError lib w text code).wroteHeader = true := by
  unfold serveError
  apply KeepsCORS_Error
  apply KeepsCORS_withHeader _ _ hw
  simp only [List.foldl]
  exact HasCORS_dropStep _ _ (by decide) (HasCORS_dropStep _ _ (by decide)
    (HasCORS_dropStep _ _ (by decide) (HasCORS_dropStep _ _ (by decide) hw.1)))

theorem KeepsCORS_setLastModified (lib : Stdlib) {w : ResponseWriter} (t : Time)
    (hw : KeepsCORS w) : KeepsCORS (setLastModified lib w t) := by
  unfold setLastModified
  split
  · exact KeepsCORS_setHeader _ _ (by decide) hw
  · exact hw

theorem KeepsCORS_writeNotModified {w : ResponseWriter} (hw : KeepsCORS w) :
    KeepsCORS (writeNotModified w) ∧ (writeNotModified w).wroteHeader = true := by
  unfold writeNotModified
  refine ⟨KeepsCORS_WriteHeader _ (KeepsCORS_withHeader _ ?_ hw), by simp⟩
  have h3 : HasCORS (((w.handlerHeader.delete "Content-Type").delete "Content-Length").delete
      "Content-Encoding") :=
    HasCORS_delete _ (by decide) (HasCORS_delete _ (by decide) (HasCORS_delete _ (by decide) hw.1))
  split
  · exact HasCORS_delete _ (by decide) h3
  · exact h3

theorem KeepsCORS_checkPreconditions (lib : Stdlib) {w : ResponseWriter} (r : Request) (t : Time)
    (hw : KeepsCORS w) :
    KeepsCORS (checkPreconditions lib w r t).1
    ∧ ((checkPreconditions lib w r t).2.1 = true →
        (checkPreconditions lib w r t).1.wroteHeader = true) := by
  have hn := KeepsCORS_writeNotModified hw
  have hp : KeepsCORS (w.WriteHeader StatusPreconditionFailed) := KeepsCORS_WriteHeader _ hw
  unfold checkPreconditions
  generalize checkIfMatch lib w r = a
  generalize checkIfUnmodifiedSince lib r t = b
  generalize checkIfNoneMatch lib w r = c
  generalize checkIfModifiedSince lib r t = d
  cases a <;> cases b <;> cases c <;> cases d <;> simp only [reduceCtorEq, if_true, if_false] <;>
    (try split_ifs) <;>
    first
    | exact ⟨hw, fun h => by simp at h⟩
    | exact ⟨hp, fun _ => by simp⟩
    | exact ⟨hn.1, fun _ => hn.2⟩

theorem KeepsCORS_writeContent {w : ResponseWriter} (r : Request) (ranged : Bool) (code : Nat)
    (body : Bytes) (hw : KeepsCORS w) :
    KeepsCORS (writeContent w r ranged code body)
    ∧ (writeContent w r ranged code body).wroteHeader = true := by
  unfold writeContent
  have h2 : KeepsCORS (w.setHeader "Accept-Ranges" "bytes") :=
    KeepsCORS_setHeader _ _ (by decide) hw
  have h3 : KeepsCORS
      (if (ranged || decide ((w.setHeader "Accept-Ranges" "bytes").handlerHeader.Get
            "Content-Encoding" = "")) = true
        then (w.setHeader "Accept-Ranges" "bytes").setHeader "Content-Length"
          (toString body.length)
        else w.setHeader "Accept-Ranges" "bytes") := by
    split
    · exact KeepsCORS_setHeader _ _ (by decide) h2
    · exact h2
  simp only []
  split
  · exact ⟨KeepsCORS_Write _ (KeepsCORS_WriteHeader _ h3), by simp⟩
  · exact ⟨KeepsCORS_WriteHeader _ h3, by simp⟩

theorem KeepsCORS_sendRanges (lib : Stdlib) {w : ResponseWriter} (r : Request) (ctype : String)
    (content : Bytes) (ranges : List httpRange) (hw : KeepsCORS w) :
    KeepsCORS (sendRanges lib w r ctype content ranges)
    ∧ (sendRanges lib w r ctype content ranges).wroteHeader = true := by
  unfold sendRanges
  simp only []
  split
  · exact KeepsCORS_writeContent _ _ _ _ hw
  · exact KeepsCORS_writeContent _ _ _ _ (KeepsCORS_setHeader _ _ (by decide) hw)
  · exact KeepsCORS_writeContent _ _ _ _ (KeepsCORS_setHeader _ _ (by decide) hw)

theorem KeepsCORS_serveRange (lib : Stdlib) {w : ResponseWriter} (r : Request) (name : String)
    (content : Bytes) (rangeReq : String) (hw : KeepsCORS w) :
    KeepsCORS (serveRange lib w r name content rangeReq)
    ∧ (serveRange lib w r name content rangeReq).wroteHeader = true := by
  unfold serveRange
  have h2 : KeepsCORS (if w.handlerHeader.has "Content-Type" = true then w
      else w.setHeader "Content-Type"
        (if w.handlerHeader.has "Content-Type" = true then w.handlerHeader.get "Content-Type"
         else lib.contentType name content)) := by
    split
    · exact hw
    · exact KeepsCORS_setHeader _ _ (by decide) hw
  simp only []
  split
  · exact KeepsCORS_sendRanges _ _ _ _ _ h2
  · split
    · exact KeepsCORS_sendRanges _ _ _ _ _ h2
    · exact KeepsCORS_serveError _ _ _ (KeepsCORS_setHeader _ _ (by decide) h2)
  · exact KeepsCORS_serveError _ _ _ h2

theorem KeepsCORS_ServeContent (lib : Stdlib) {w : ResponseWriter} (r : Request) (name : String)
    (modtime : Time) (content : Bytes) (hw : KeepsCORS w) :
    KeepsCORS (ServeContent lib w r name modtime content)
    ∧ (ServeContent lib w r name modtime content).wroteHeader = true := by
  unfold ServeContent
  have h1 := KeepsCORS_checkPreconditions lib r modtime (KeepsCORS_setLastModified lib modtime hw)
  generalize checkPreconditions lib (setLastModified lib w modtime) r modtime = res at h1
  obtain ⟨w1, done, rangeReq⟩ := res
  cases done with
  | true => exact ⟨h1.1, h1.2 rfl⟩
  | false => exact KeepsCORS_serveRange _ _ _ _ _ h1.1

/-! ## Lemmas: the loader keeps the fingerprints in step with the documents -/

theorem HasSuffix_iff (s suffix : String) :
    strings.HasSuffix s suffix = true ↔ suffix.data <:+ s.data := by
  unfold strings.HasSuffix
  exact List.isSuffixOf_iff_suffix

theorem HasSuffix_append_left (a s suffix : String) (h : strings.HasSuffix s suffix = true) :
    strings.HasSuffix (a ++ s) suffix = true := by
  rw [HasSuffix_iff] at h ⊢
  rw [String.data_append]
  exact h.trans (List.suffix_append _ _)

theorem LoadInv_empty : LoadInv LoadState.empty := by
  intro k
  simp [LoadState.empty, GoMap.empty]

/-- Storing a document under a path that ends in `.json`, with its fingerprint, keeps
the invariant. -/
theorem LoadInv_store (st : LoadState) (key : String) (content : Bytes) (t : Time)
    (hkey : strings.HasSuffix key ".json" = true) (h : LoadInv st) :
    LoadInv { files := st.files.set key ⟨content, t⟩,
              etags := st.etags.set key ("\"" ++ hexLower (md5.Sum content) ++ "\""),
              log := st.log, ticks := st.ticks + 1 } := by
  intro k
  by_cases hk : k = key
  · subst hk
    simp [GoMap.set, hkey]
  · have := h k
    simpa [GoMap.set, hk] using this

theorem LoadInv_log (st : LoadState) (line : String) (h : LoadInv st) :
    LoadInv { st with log := st.log ++ [line] } := h

theorem loadEntries_inv (env : World)
    (recurse : String → String → LoadState → Option (LoadState × Option String))
    (hrec : ∀ d p st st1 res, LoadInv st → recurse d p st = some (st1, res) → LoadInv st1)
    (dir pfx : String) :
    ∀ (entries : List DirEntry) (st st1 : LoadState) (res : Option String), LoadInv st →
      loadEntries env recurse dir pfx entries st = some (st1, res) → LoadInv st1 := by
  intro entries
  induction entries with
  | nil =>
    intro st st1 res hst h
    simp only [loadEntries, Option.some.injEq, Prod.mk.injEq] at h
    rw [← h.1]; exact hst
  | cons e rest ih =>
    intro st st1 res hst h
    simp only [loadEntries] at h
    by_cases hd : e.IsDir = true
    · simp only [hd, if_true] at h
      cases hr : recurse (dir ++ "/" ++ e.Name) (pfx ++ "/" ++ e.Name) st with
      | none => simp [hr] at h
      | some p =>
        obtain ⟨st2, r2⟩ := p
        have h2 := hrec _ _ _ _ _ hst hr
        cases r2 with
        | none =>
          simp only [hr] at h
          exact ih _ _ _ h2 h
        | some err =>
          simp only [hr, Option.some.injEq, Prod.mk.injEq] at h
          rw [← h.1]; exact h2
    · simp only [hd, Bool.false_eq_true, if_false] at h
      by_cases hj : strings.HasSuffix e.Name ".json" = true
      · simp only [hj, if_true] at h
        cases hf : env.jsonFiles.ReadFile (dir ++ "/" ++ e.Name) with
        | error err =>
          simp only [hf] at h
          exact ih _ _ _ (LoadInv_log st _ hst) h
        | ok content =>
          simp only [hf] at h
          exact ih _ _ _ (LoadInv_store st _ content _ (HasSuffix_append_left _ _ _ hj) hst) h
      · simp only [hj, Bool.false_eq_true, if_false] at h
        exact ih _ _ _ hst h

theorem loadJSONFiles_inv (env : World) :
    ∀ (fuel : Nat) (dir pfx : String) (st st1 : LoadState) (res : Option String), LoadInv st →
      loadJSONFiles env fuel dir pfx st = some (st1, res) → LoadInv st1 := by
  intro fuel
  induction fuel with
  | zero => intro dir pfx st st1 res _ h; simp [loadJSONFiles] at h
  | succ n ih =>
    intro dir pfx st st1 res hst h
    simp only [loadJSONFiles] at h
    cases hr : env.jsonFiles.ReadDir dir with
    | error err =>
      simp only [hr, Option.some.injEq, Prod.mk.injEq] at h
      rw [← h.1]; exact hst
    | ok entries =>
      simp only [hr] at h
      exact loadEntries_inv env _ (fun d p s s1 r hs hrun => ih d p s s1 r hs hrun) dir pfx
        entries st st1 res hst h

/-! ## Lemmas: what the walk loads -/

theorem DirEntry_eta_dir (e : DirEntry) (h : e.IsDir = true) : e = ⟨e.Name, true⟩ := by
  cases e; simp_all

theorem DirEntry_eta_file (e : DirEntry) (h : ¬ e.IsDir = true) : e = ⟨e.Name, false⟩ := by
  cases e; simp_all

theorem DirIn_mono {fs : FS} {dir : String} {e : DirEntry} {rest : List DirEntry}
    {ds : List String} (h : DirIn fs dir rest ds) : DirIn fs dir (e :: rest) ds := by
  cases ds with
  | nil => exact h
  | cons d ds => exact ⟨List.mem_cons_of_mem _ h.1, h.2⟩

theorem FileIn_mono {fs : FS} {dir : String} {e : DirEntry} {rest : List DirEntry}
    {ds : List String} {name : String} (h : FileIn fs dir rest ds name) :
    FileIn fs dir (e :: rest) ds name := by
  cases ds with
  | nil => exact List.mem_cons_of_mem _ h
  | cons d ds => exact ⟨List.mem_cons_of_mem _ h.1, h.2⟩

theorem LoopSpec_nil (env : World) (dir pfx : String) (st : LoadState) :
    LoopSpec env dir pfx [] st st none where
  error_of_dir := fun e h => by simp at h
  dirs_read := fun _ ds h => by cases ds <;> simp [DirIn] at h
  loaded := fun _ ds name c h => by cases ds <;> simp [FileIn] at h
  sound := fun k fd h => Or.inl h
  mono := fun k h => h

/-- Skipping an entry that is no directory and stores no document. -/
theorem LoopSpec_skip (env : World) (dir pfx : String) (e : DirEntry) (rest : List DirEntry)
    (st st0 st1 : LoadState) (res : Option String)
    (hfiles : st0.files = st.files) (hd : ¬ e.IsDir = true)
    (hno : ∀ c, strings.HasSuffix e.Name ".json" = true →
      env.jsonFiles.ReadFile (dir ++ "/" ++ e.Name) ≠ .ok c)
    (h : LoopSpec env dir pfx rest st0 st1 res) :
    LoopSpec env dir pfx (e :: rest) st st1 res where
  error_of_dir := fun err he => by
    obtain ⟨ds, h1, h2⟩ := h.error_of_dir err he
    exact ⟨ds, DirIn_mono h1, h2⟩
  dirs_read := fun hr ds hds => by
    cases ds with
    | nil => exact absurd hds (by simp [DirIn])
    | cons d ds =>
      obtain ⟨hm, hn⟩ := hds
      rcases List.mem_cons.mp hm with heq | hin
      · exact absurd (by rw [← heq]) hd
      · exact h.dirs_read hr (d :: ds) ⟨hin, hn⟩
  loaded := fun hr ds name c hf hs hrd => by
    cases ds with
    | nil =>
      rcases List.mem_cons.mp hf with heq | hin
      · have hn : e.Name = name := by rw [← heq]
        subst hn
        exact absurd hrd (hno c hs)
      · exact h.loaded hr [] name c hin hs hrd
    | cons d ds =>
      obtain ⟨hm, hn⟩ := hf
      rcases List.mem_cons.mp hm with heq | hin
      · exact absurd (by rw [← heq]) hd
      · exact h.loaded hr (d :: ds) name c ⟨hin, hn⟩ hs hrd
  sound := fun k fd hk => by
    rcases h.sound k fd hk with h1 | ⟨ds, name, h1, h2, h3, h4⟩
    · exact Or.inl (by rw [← hfiles]; exact h1)
    · exact Or.inr ⟨ds, name, FileIn_mono h1, h2, h3, h4⟩
  mono := fun k hk => h.mono k (by rw [hfiles]; exact hk)

/-- Storing the document of an entry, then walking the rest. -/
theorem LoopSpec_store (env : World) (dir pfx : String) (e : DirEntry) (rest : List DirEntry)
    (st st0 st1 : LoadState) (res : Option String) (content : Bytes) (t : Time)
    (hfiles : st0.files = st.files.set (pfx ++ "/" ++ e.Name) ⟨content, t⟩)
    (hd : ¬ e.IsDir = true) (hs : strings.HasSuffix e.Name ".json" = true)
    (hread : env.jsonFiles.ReadFile (dir ++ "/" ++ e.Name) = .ok content)
    (h : LoopSpec env dir pfx rest st0 st1 res) :
    LoopSpec env dir pfx (e :: rest) st st1 res where
  error_of_dir := fun err he => by
    obtain ⟨ds, h1, h2⟩ := h.error_of_dir err he
    exact ⟨ds, DirIn_mono h1, h2⟩
  dirs_read := fun hr ds hds => by
    cases ds with
    | nil => exact absurd hds (by simp [DirIn])
    | cons d ds =>
      obtain ⟨hm, hn⟩ := hds
      rcases List.mem_cons.mp hm with heq | hin
      · exact absurd (by rw [← heq]) hd
      · exact h.dirs_read hr (d :: ds) ⟨hin, hn⟩
  loaded := fun hr ds name c hf hsn hrd => by
    cases ds with
    | nil =>
      rcases List.mem_cons.mp hf with heq | hin
      · have hn : e.Name = name := by rw [← heq]
        subst hn
        apply h.mono
        show st0.files (pfx ++ "/" ++ e.Name) ≠ none
        rw [hfiles]
        simp [GoMap.set]
      · exact h.loaded hr [] name c hin hsn hrd
    | cons d ds =>
      obtain ⟨hm, hn⟩ := hf
      rcases List.mem_cons.mp hm with heq | hin
      · exact absurd (by rw [← heq]) hd
      · exact h.loaded hr (d :: ds) name c ⟨hin, hn⟩ hsn hrd
  sound := fun k fd hk => by
    rcases h.sound k fd hk with h1 | ⟨ds, name, h1, h2, h3, h4⟩
    · rw [hfiles] at h1
      by_cases hkey : k = pfx ++ "/" ++ e.Name
      · right
        refine ⟨[], e.Name, ?_, hs, hkey, ?_⟩
        · show (⟨e.Name, false⟩ : DirEntry) ∈ e :: rest
          rw [← DirEntry_eta_file e hd]
          exact List.mem_cons_self _ _
        · have : fd = ⟨content, t⟩ := by
            simpa [GoMap.set, hkey] using h1.symm
          rw [this]
          exact hread
      · left
        simpa [GoMap.set, hkey] using h1
    · exact Or.inr ⟨ds, name, FileIn_mono h1, h2, h3, h4⟩
  mono := fun k hk => h.mono k (by
    rw [hfiles]
    by_cases hkey : k = pfx ++ "/" ++ e.Name
    · simp [GoMap.set, hkey]
    · simpa [GoMap.set, hkey] using hk)

/-- The walk of a subdirectory failed: so does the walk of the entries. -/
theorem LoopSpec_dir_error (env : World) (dir pfx : String) (e : DirEntry)
    (rest : List DirEntry) (st st2 : LoadState) (err : String) (hd : e.IsDir = true)
    (h : WalkSpec env (dir ++ "/" ++ e.Name) (pfx ++ "/" ++ e.Name) st st2 (some err)) :
    LoopSpec env dir pfx (e :: rest) st st2 (some err) where
  error_of_dir := fun err1 he => by
    obtain ⟨ds, h1, h2⟩ := h.error_of_dir err1 he
    refine ⟨e.Name :: ds, ⟨?_, h1⟩, h2⟩
    rw [← DirEntry_eta_dir e hd]
    exact List.mem_cons_self _ _
  dirs_read := fun hr => by simp at hr
  loaded := fun hr => by simp at hr
  sound := fun k fd hk => by
    rcases h.sound k fd hk with h1 | ⟨ds, name, h1, h2, h3, h4⟩
    · exact Or.inl h1
    · refine Or.inr ⟨e.Name :: ds, name, ⟨?_, h1⟩, h2, h3, h4⟩
      rw [← DirEntry_eta_dir e hd]
      exact List.mem_cons_self _ _
  mono := h.mono

/-- The walk of a subdirectory went through, then the walk of the rest. -/
theorem LoopSpec_dir_ok (env : World) (dir pfx : String) (e : DirEntry)
    (rest : List DirEntry) (st st2 st3 : LoadState) (res : Option String) (hd : e.IsDir = true)
    (hsub : WalkSpec env (dir ++ "/" ++ e.Name) (pfx ++ "/" ++ e.Name) st st2 none)
    (h : LoopSpec env dir pfx rest st2 st3 res) :
    LoopSpec env dir pfx (e :: rest) st st3 res where
  error_of_dir := fun err he => by
    obtain ⟨ds, h1, h2⟩ := h.error_of_dir err he
    exact ⟨ds, DirIn_mono h1, h2⟩
  dirs_read := fun hr ds hds => by
    cases ds with
    | nil => exact absurd hds (by simp [DirIn])
    | cons d ds =>
      obtain ⟨hm, hn⟩ := hds
      rcases List.mem_cons.mp hm with heq | hin
      · have hname : e.Name = d := by rw [← heq]
        subst hname
        exact hsub.dirs_read rfl ds hn
      · exact h.dirs_read hr (d :: ds) ⟨hin, hn⟩
  loaded := fun hr ds name c hf hs hrd => by
    cases ds with
    | nil =>
      rcases List.mem_cons.mp hf with heq | hin
      · have : e.IsDir = false := by rw [← heq]
        rw [hd] at this
        exact absurd this (by decide)
      · exact h.loaded hr [] name c hin hs hrd
    | cons d ds =>
      obtain ⟨hm, hn⟩ := hf
      rcases List.mem_cons.mp hm with heq | hin
      · have hname : e.Name = d := by rw [← heq]
        subst hname
        exact h.mono _ (hsub.loaded rfl ds name c hn hs hrd)
      · exact h.loaded hr (d :: ds) name c ⟨hin, hn⟩ hs hrd
  sound := fun k fd hk => by
    rcases h.sound k fd hk with h1 | ⟨ds, name, h1, h2, h3, h4⟩
    · rcases hsub.sound k fd h1 with g1 | ⟨ds, name, g1, g2, g3, g4⟩
      · exact Or.inl g1
      · refine Or.inr ⟨e.Name :: ds, name, ⟨?_, g1⟩, g2, g3, g4⟩
        rw [← DirEntry_eta_dir e hd]
        exact List.mem_cons_self _ _
    · exact Or.inr ⟨ds, name, FileIn_mono h1, h2, h3, h4⟩
  mono := fun k hk => h.mono k (hsub.mono k hk)

/-- A directory that cannot be read ends the walk with its error. -/
theorem WalkSpec_of_error (env : World) (dir pfx : String) (st : LoadState) (err : String)
    (hr : env.jsonFiles.ReadDir dir = .error err) : WalkSpec env dir pfx st st (some err) where
  error_of_dir := fun e he => by
    have : err = e := by simpa using he
    subst this
    exact ⟨[], trivial, hr⟩
  dirs_read := fun h => by simp at h
  loaded := fun h => by simp at h
  sound := fun k fd h => Or.inl h
  mono := fun k h => h

/-- The walk of a directory is the walk of its entries. -/
theorem WalkSpec_of_loop (env : World) (dir pfx : String) (es : List DirEntry)
    (st st1 : LoadState) (res : Option String) (hr : env.jsonFiles.ReadDir dir = .ok es)
    (h : LoopSpec env dir pfx es st st1 res) : WalkSpec env dir pfx st st1 res where
  error_of_dir := fun e he => by
    obtain ⟨ds, h1, h2⟩ := h.error_of_dir e he
    cases ds with
    | nil => exact absurd h1 (by simp [DirIn])
    | cons d ds => exact ⟨d :: ds, ⟨⟨es, hr, h1.1⟩, h1.2⟩, h2⟩
  dirs_read := fun hres ds hds => by
    cases ds with
    | nil => exact ⟨es, hr⟩
    | cons d ds =>
      obtain ⟨⟨es1, hr1, hm⟩, hn⟩ := hds
      have : es1 = es := by rw [hr] at hr1; simpa using hr1.symm
      subst this
      exact h.dirs_read hres (d :: ds) ⟨hm, hn⟩
  loaded := fun hres ds name c hf hs hrd => by
    cases ds with
    | nil =>
      obtain ⟨es1, hr1, hm⟩ := hf
      have : es1 = es := by rw [hr] at hr1; simpa using hr1.symm
      subst this
      exact h.loaded hres [] name c hm hs hrd
    | cons d ds =>
      obtain ⟨⟨es1, hr1, hm⟩, hn⟩ := hf
      have : es1 = es := by rw [hr] at hr1; simpa using hr1.symm
      subst this
      exact h.loaded hres (d :: ds) name c ⟨hm, hn⟩ hs hrd
  sound := fun k fd hk => by
    rcases h.sound k fd hk with h1 | ⟨ds, name, h1, h2, h3, h4⟩
    · exact Or.inl h1
    · refine Or.inr ⟨ds, name, ?_, h2, h3, h4⟩
      cases ds with
      | nil => exact ⟨es, hr, h1⟩
      | cons d ds => exact ⟨⟨es, hr, h1.1⟩, h1.2⟩
  mono := h.mono

/-- The loop over the entries of a directory returns and meets its specification,
when the walk of each subdirectory does. -/
theorem loadEntries_spec (env : World)
    (recurse : String → String → LoadState → Option (LoadState × Option String))
    (dir pfx : String) :
    ∀ (es : List DirEntry) (st : LoadState),
      (∀ e ∈ es, e.IsDir = true → ∀ s, ∃ s1 r,
        recurse (dir ++ "/" ++ e.Name) (pfx ++ "/" ++ e.Name) s = some (s1, r)
          ∧ WalkSpec env (dir ++ "/" ++ e.Name) (pfx ++ "/" ++ e.Name) s s1 r) →
      ∃ st1 res, loadEntries env recurse dir pfx es st = some (st1, res)
        ∧ LoopSpec env dir pfx es st st1 res := by
  intro es
  induction es with
  | nil => intro st _; exact ⟨st, none, rfl, LoopSpec_nil env dir pfx st⟩
  | cons e rest ih =>
    intro st hrec
    have hrest : ∀ s, ∃ st1 res, loadEntries env recurse dir pfx rest s = some (st1, res)
        ∧ LoopSpec env dir pfx rest s st1 res :=
      fun s => ih s (fun e1 he1 => hrec e1 (List.mem_cons_of_mem _ he1))
    simp only [loadEntries]
    by_cases hd : e.IsDir = true
    · obtain ⟨st2, r2, hrun, hsub⟩ := hrec e (List.mem_cons_self _ _) hd st
      simp only [hd, if_true, hrun]
      cases r2 with
      | some err => exact ⟨st2, some err, rfl, LoopSpec_dir_error env dir pfx e rest st st2 err hd hsub⟩
      | none =>
        obtain ⟨st3, res, hloop, hspec⟩ := hrest st2
        exact ⟨st3, res, hloop, LoopSpec_dir_ok env dir pfx e rest st st2 st3 res hd hsub hspec⟩
    · simp only [hd, Bool.false_eq_true, if_false]
      by_cases hj : strings.HasSuffix e.Name ".json" = true
      · simp only [hj, if_true]
        cases hf : env.jsonFiles.ReadFile (dir ++ "/" ++ e.Name) with
        | error err =>
          obtain ⟨st1, res, hloop, hspec⟩ := hrest
            { st with log := st.log ++ ["Failed to read embedded file " ++ (dir ++ "/" ++ e.Name)
                ++ ": " ++ err] }
          refine ⟨st1, res, hloop, LoopSpec_skip env dir pfx e rest st
            { st with log := st.log ++ ["Failed to read embedded file " ++ (dir ++ "/" ++ e.Name)
                ++ ": " ++ err] } st1 res rfl hd ?_ hspec⟩
          intro c _ hc
          rw [hf] at hc
          exact absurd hc (by simp)
        | ok content =>
          obtain ⟨st1, res, hloop, hspec⟩ := hrest
            { files := st.files.set (pfx ++ "/" ++ e.Name) ⟨content, env.now st.ticks⟩,
              etags := st.etags.set (pfx ++ "/" ++ e.Name)
                ("\"" ++ hexLower (md5.Sum content) ++ "\""),
              log := st.log, ticks := st.ticks + 1 }
          exact ⟨st1, res, hloop,
            LoopSpec_store env dir pfx e rest st
              { files := st.files.set (pfx ++ "/" ++ e.Name) ⟨content, env.now st.ticks⟩,
                etags := st.etags.set (pfx ++ "/" ++ e.Name)
                  ("\"" ++ hexLower (md5.Sum content) ++ "\""),
                log := st.log, ticks := st.ticks + 1 }
              st1 res content (env.now st.ticks) rfl hd hj hf hspec⟩
      · simp only [hj, Bool.false_eq_true, if_false]
        obtain ⟨st1, res, hloop, hspec⟩ := hrest st
        exact ⟨st1, res, hloop,
          LoopSpec_skip env dir pfx e rest st st st1 res rfl hd (fun c h => absurd h hj) hspec⟩

/-- On a bundle of fewer than `fuel` levels below `dir`, the walk returns and meets its
specification. -/
theorem loadJSONFiles_spec (env : World) :
    ∀ (fuel : Nat) (dir pfx : String) (st : LoadState),
      depthWithin env.jsonFiles fuel dir = true →
      ∃ st1 res, loadJSONFiles env fuel dir pfx st = some (st1, res)
        ∧ WalkSpec env dir pfx st st1 res := by
  intro fuel
  induction fuel with
  | zero => intro dir pfx st h; simp [depthWithin] at h
  | succ n ih =>
    intro dir pfx st h
    simp only [depthWithin] at h
    simp only [loadJSONFiles]
    cases hr : env.jsonFiles.ReadDir dir with
    | error err => exact ⟨st, some err, rfl, WalkSpec_of_error env dir pfx st err hr⟩
    | ok es =>
      simp only [hr, List.all_eq_true, Bool.or_eq_true, Bool.not_eq_true'] at h
      obtain ⟨st1, res, hloop, hspec⟩ := loadEntries_spec env (loadJSONFiles env n) dir pfx es st
        (fun e he hd s => ih _ _ s (by
          rcases h e he with h1 | h1
          · rw [hd] at h1; exact absurd h1 (by decide)
          · exact h1))
      exact ⟨st1, res, hloop, WalkSpec_of_loop env dir pfx es st st1 res hr hspec⟩

/-! ## Lemmas: paths and keys -/

theorem joinDir_eq (dir : String) (ds : List String) : joinDir dir ds = dir ++ joinDir "" ds := by
  induction ds generalizing dir with
  | nil => simp [joinDir]
  | cons d ds ih =>
    have h1 : joinDir dir (d :: ds) = joinDir (dir ++ "/" ++ d) ds := rfl
    have h2 : joinDir "" (d :: ds) = joinDir ("" ++ "/" ++ d) ds := rfl
    rw [h1, h2, ih (dir ++ "/" ++ d), ih ("" ++ "/" ++ d)]
    simp [String.append_assoc]

/-- The path of a file in the bundle is the root followed by its key. -/
theorem path_eq_root_key (dir : String) (ds : List String) (name : String) :
    joinDir dir ds ++ "/" ++ name = dir ++ (joinDir "" ds ++ "/" ++ name) := by
  rw [joinDir_eq dir ds]
  simp [String.append_assoc]

theorem HasPrefix_iff (s p : String) : strings.HasPrefix s p = true ↔ p.data <+: s.data := by
  unfold strings.HasPrefix
  exact List.isPrefixOf_iff_prefix

/-- A key starts with a slash. -/
theorem key_starts_with_slash (ds : List String) (name : String) :
    strings.HasPrefix (joinDir "" ds ++ "/" ++ name) "/" = true := by
  rw [HasPrefix_iff]
  cases ds with
  | nil => simp [joinDir, String.data_append]
  | cons d ds =>
    have h2 : joinDir "" (d :: ds) = joinDir ("" ++ "/" ++ d) ds := rfl
    rw [h2, joinDir_eq]
    simp [String.data_append]

/-- A text that ends in `.json` does not end in a slash. -/
theorem not_slash_of_json (k : String) (h : strings.HasSuffix k ".json" = true) :
    strings.HasSuffix k "/" = false := by
  cases hs : strings.HasSuffix k "/" with
  | false => rfl
  | true =>
    rw [HasSuffix_iff] at h hs
    have := List.suffix_of_suffix_length_le hs h (by decide)
    exact absurd this (by decide)

theorem suffix_of_append_slash (s a nm : List Char) (hs : '/' ∉ s)
    (h : s <:+ a ++ '/' :: nm) : s <:+ nm := by
  induction a with
  | nil =>
    rcases List.suffix_cons_iff.mp h with h1 | h1
    · rw [h1] at hs; exact absurd (List.mem_cons_self _ _) hs
    · exact h1
  | cons x a ih =>
    rcases List.suffix_cons_iff.mp h with h1 | h1
    · rw [h1] at hs
      exact absurd (List.mem_cons_of_mem _ (List.mem_append_right _ (List.mem_cons_self _ _))) hs
    · exact ih h1

/-- A key ends in `.json` only if the file name does. -/
theorem name_json_of_key_json (a name : String)
    (h : strings.HasSuffix (a ++ "/" ++ name) ".json" = true) :
    strings.HasSuffix name ".json" = true := by
  rw [HasSuffix_iff] at h ⊢
  rw [String.data_append, String.data_append] at h
  exact suffix_of_append_slash _ a.data name.data (by decide) (by simpa using h)

/-- On a bundle of bounded depth whose reads succeed, each directory lists and each
`.json` file reads. -/
theorem reads_ok (fs : FS) :
    ∀ (n : Nat) (dir : String), depthWithin fs n dir = true → readsSucceed fs n dir = true →
      (∀ ds, IsDirAt fs dir ds → ∃ l, fs.ReadDir (joinDir dir ds) = .ok l)
      ∧ (∀ ds name, IsFileAt fs dir ds name → strings.HasSuffix name ".json" = true →
          ∃ c, fs.ReadFile (joinDir dir ds ++ "/" ++ name) = .ok c) := by
  intro n
  induction n with
  | zero => intro dir h; simp [depthWithin] at h
  | succ n ih =>
    intro dir hd hr
    simp only [depthWithin] at hd
    simp only [readsSucceed] at hr
    cases hl : fs.ReadDir dir with
    | error err => simp [hl] at hr
    | ok es =>
      simp only [hl, List.all_eq_true, Bool.or_eq_true, Bool.not_eq_true'] at hd hr
      have hsub : ∀ d, (⟨d, true⟩ : DirEntry) ∈ es →
          depthWithin fs n (dir ++ "/" ++ d) = true ∧ readsSucceed fs n (dir ++ "/" ++ d) = true := by
        intro d hm
        refine ⟨?_, ?_⟩
        · rcases hd _ hm with h1 | h1
          · exact absurd h1 (by simp)
          · exact h1
        · simpa using hr _ hm
      refine ⟨?_, ?_⟩
      · intro ds hds
        cases ds with
        | nil => exact ⟨es, hl⟩
        | cons d ds =>
          obtain ⟨⟨es1, hr1, hm⟩, hn⟩ := hds
          have : es1 = es := by rw [hl] at hr1; simpa using hr1.symm
          subst this
          exact (ih _ (hsub d hm).1 (hsub d hm).2).1 ds hn
      · intro ds name hf hs
        cases ds with
        | nil =>
          obtain ⟨es1, hr1, hm⟩ := hf
          have : es1 = es := by rw [hl] at hr1; simpa using hr1.symm
          subst this
          have := hr _ hm
          simp only [Bool.false_eq_true, if_false, hs, Bool.not_true, Bool.false_or] at this
          show ∃ c, fs.ReadFile (dir ++ "/" ++ name) = .ok c
          cases hc : fs.ReadFile (dir ++ "/" ++ name) with
          | error err => simp [hc] at this
          | ok c => exact ⟨c, rfl⟩
        | cons d ds =>
          obtain ⟨⟨es1, hr1, hm⟩, hn⟩ := hf
          have : es1 = es := by rw [hl] at hr1; simpa using hr1.symm
          subst this
          exact (ih _ (hsub d hm).1 (hsub d hm).2).2 ds name hn hs

/-! ## Lemmas: the fuel is no part of the result -/

theorem loadEntries_congr (env : World)
    (rec1 rec2 : String → String → LoadState → Option (LoadState × Option String))
    (hrec : ∀ d p s r, rec1 d p s = some r → rec2 d p s = some r) (dir pfx : String) :
    ∀ (es : List DirEntry) (st : LoadState) (r : LoadState × Option String),
      loadEntries env rec1 dir pfx es st = some r → loadEntries env rec2 dir pfx es st = some r := by
  intro es
  induction es with
  | nil => intro st r h; simpa [loadEntries] using h
  | cons e rest ih =>
    intro st r h
    simp only [loadEntries] at h ⊢
    by_cases hd : e.IsDir = true
    · simp only [hd, if_true] at h ⊢
      cases h1 : rec1 (dir ++ "/" ++ e.Name) (pfx ++ "/" ++ e.Name) st with
      | none => simp [h1] at h
      | some p =>
        rw [hrec _ _ _ _ h1]
        rw [h1] at h
        obtain ⟨st2, r2⟩ := p
        cases r2 with
        | none => exact ih _ _ h
        | some err => exact h
    · simp only [hd, Bool.false_eq_true, if_false] at h ⊢
      by_cases hj : strings.HasSuffix e.Name ".json" = true
      · simp only [hj, if_true] at h ⊢
        cases hf : env.jsonFiles.ReadFile (dir ++ "/" ++ e.Name) with
        | error err => rw [hf] at h; exact ih _ _ h
        | ok content => rw [hf] at h; exact ih _ _ h
      · simp only [hj, Bool.false_eq_true, if_false] at h ⊢
        exact ih _ _ h

/-- A walk that returns with some fuel returns the same with more. -/
theorem loadJSONFiles_fuel_succ (env : World) :
    ∀ (fuel : Nat) (dir pfx : String) (st : LoadState) (r : LoadState × Option String),
      loadJSONFiles env fuel dir pfx st = some r →
      loadJSONFiles env (fuel + 1) dir pfx st = some r := by
  intro fuel
  induction fuel with
  | zero => intro dir pfx st r h; simp [loadJSONFiles] at h
  | succ n ih =>
    intro dir pfx st r h
    rw [loadJSONFiles] at h ⊢
    cases hr : env.jsonFiles.ReadDir dir with
    | error err => rw [hr] at h; exact h
    | ok es =>
      rw [hr] at h
      exact loadEntries_congr env _ _ (fun d p s r1 h1 => ih d p s r1 h1) dir pfx es st r h

/-- A walk that returns with some fuel returns the same with any larger fuel. -/
theorem loadJSONFiles_fuel_mono (env : World) (fuel more : Nat) (dir pfx : String)
    (st : LoadState) (r : LoadState × Option String)
    (h : loadJSONFiles env fuel dir pfx st = some r) :
    loadJSONFiles env (fuel + more) dir pfx st = some r := by
  induction more with
  | zero => exact h
  | succ m ih => exact loadJSONFiles_fuel_succ env _ dir pfx st r ih

/-- No key of a table built by the loader is one of the two paths that `handleRequest`
answers before it looks into the table. -/
theorem loader_keys_not_special (env : World) (fuel : Nat) (st : LoadState)
    (res : Option String)
    (hload : loadJSONFiles env fuel "json" "" LoadState.empty = some (st, res))
    (k : String) (hk : st.files k ≠ none) : k ≠ "/" ∧ k ≠ "/health" := by
  have hinv := loadJSONFiles_inv env fuel "json" "" _ st res LoadInv_empty hload k
  obtain ⟨fd, hfd⟩ := Option.ne_none_iff_exists'.mp hk
  rw [hfd] at hinv
  refine ⟨?_, ?_⟩ <;> intro h <;> rw [h] at hinv <;> exact absurd hinv.1 (by decide)

/-! ## Lemmas: the MD5 embedding on known inputs -/

set_option maxRecDepth 1000000 in
/-- The MD5 checksum of the empty input (RFC 1321, appendix A.5). -/
theorem md5_empty : hexLower (md5.Sum (bytesOf "")) = "d41d8cd98f00b204e9800998ecf8427e" := by
  rfl

set_option maxRecDepth 1000000 in
/-- The MD5 checksum of `abc` (RFC 1321, appendix A.5). -/
theorem md5_abc : hexLower (md5.Sum (bytesOf "abc")) = "900150983cd24fb0d6963f7d28e17f72" := by
  rfl

set_option maxRecDepth 1000000 in
/-- The fingerprint of the sample document. -/
theorem sampleETag_eq : sampleETag = "\"ac3ef48caa08fa3ed5e025da69edc645\"" := by
  rfl

/-! ## Lemmas: the handler and the library on a plain request -/

theorem KeepsCORS_handleRequest (lib : Stdlib) (w : ResponseWriter) (r : Request)
    (baseFQDN : String) (files : GoMap fileData) (etags : GoMap String)
    (hfresh : w.wroteHeader = false) :
    KeepsCORS (handleRequest lib w r baseFQDN files etags)
    ∧ (handleRequest lib w r baseFQDN files etags).wroteHeader = true := by
  have h0 : KeepsCORS (((w.setHeader "Access-Control-Allow-Origin" "*").setHeader
      "Access-Control-Allow-Methods" "GET, HEAD, OPTIONS").setHeader
      "Access-Control-Allow-Headers" "Origin, X-Requested-With, Content-Type, Accept") := by
    refine ⟨?_, fun h => ?_⟩
    · simp [HasCORS, Header.Set]
    · simp [hfresh] at h
  unfold handleRequest
  simp only []
  split
  · exact ⟨KeepsCORS_WriteHeader _ h0, by simp⟩
  · split
    · exact KeepsCORS_Redirect _ _ _ _ h0
    · split
      · exact ⟨KeepsCORS_Write _ (KeepsCORS_WriteHeader _
          (KeepsCORS_setHeader _ _ (by decide) h0)), by simp⟩
      · split
        · exact KeepsCORS_Redirect _ _ _ _ h0
        · have h1 : KeepsCORS (if strings.HasSuffix r.URL.Path ".json" = true then
              ((((w.setHeader "Access-Control-Allow-Origin" "*").setHeader
                "Access-Control-Allow-Methods" "GET, HEAD, OPTIONS").setHeader
                "Access-Control-Allow-Headers"
                "Origin, X-Requested-With, Content-Type, Accept").setHeader
                "Content-Type" "application/json")
              else (((w.setHeader "Access-Control-Allow-Origin" "*").setHeader
                "Access-Control-Allow-Methods" "GET, HEAD, OPTIONS").setHeader
                "Access-Control-Allow-Headers"
                "Origin, X-Requested-With, Content-Type, Accept")) := by
            split
            · exact KeepsCORS_setHeader _ _ (by decide) h0
            · exact h0
          have h2 := KeepsCORS_setHeader "ETag" ((etags r.URL.Path).getD "") (by decide)
            (KeepsCORS_setHeader "Cache-Control" "public, must-revalidate" (by decide) h1)
          split
          · exact ⟨KeepsCORS_setHeader _ _ (by decide) (KeepsCORS_WriteHeader _ h2), by simp⟩
          · exact KeepsCORS_ServeContent _ _ _ _ _ h2

/-- Without `If-Match`, `If-Unmodified-Since`, `If-None-Match`, `If-Modified-Since` and
`Range`, the preconditions of `ServeContent` let the request through, with no
range to honour. -/
theorem checkPreconditions_plain (lib : Stdlib) (w : ResponseWriter) (r : Request) (t : Time)
    (h1 : r.Header.Get "If-Match" = "") (h2 : r.Header.Get "If-Unmodified-Since" = "")
    (h3 : r.Header.Get "If-None-Match" = "") (h4 : r.Header.Get "If-Modified-Since" = "")
    (h5 : r.Header.Get "Range" = "") :
    checkPreconditions lib w r t = (w, false, "") := by
  have h3' : r.Header.get "If-None-Match" = "" := by simpa [Header.Get] using h3
  have h5' : r.Header.get "Range" = "" := by simpa [Header.Get] using h5
  simp [checkPreconditions, rangeAfterIfRange, checkIfMatch, checkIfUnmodifiedSince,
    checkIfNoneMatch, checkIfModifiedSince, h1, h2, h3', h4, h5']

/-- The reply of `ServeContent` to a GET request without conditional or `Range`
headers, when a content type is set and no content encoding: status 200, the
whole content, and the headers set before plus those of the library. -/
theorem ServeContent_plain (lib : Stdlib) (w : ResponseWriter) (r : Request) (name : String)
    (t : Time) (content : Bytes)
    (hw : w.wroteHeader = false) (hreq : w.req = r) (hm : r.Method = "GET")
    (hct : w.handlerHeader.has "Content-Type" = true)
    (hce : w.handlerHeader.vals "Content-Encoding" = none)
    (h1 : r.Header.Get "If-Match" = "") (h2 : r.Header.Get "If-Unmodified-Since" = "")
    (h3 : r.Header.Get "If-None-Match" = "") (h4 : r.Header.Get "If-Modified-Since" = "")
    (h5 : r.Header.Get "Range" = "") :
    (ServeContent lib w r name t content).status = 200
    ∧ (ServeContent lib w r name t content).body = w.body ++ content
    ∧ ∀ k, k ≠ "Last-Modified" → k ≠ "Accept-Ranges" → k ≠ "Content-Length" →
        (ServeContent lib w r name t content).header.vals k = w.handlerHeader.vals k := by
  have hw1 : (setLastModified lib w t).wroteHeader = false := by
    unfold setLastModified; split <;> simp [hw]
  have hreq1 : (setLastModified lib w t).req = r := by
    unfold setLastModified; split <;> simp [hreq]
  have hct1 : (setLastModified lib w t).handlerHeader.has "Content-Type" = true := by
    unfold setLastModified; split
    · simpa [Header.has, Header.Set] using hct
    · exact hct
  have hce1 : (setLastModified lib w t).handlerHeader.vals "Content-Encoding" = none := by
    unfold setLastModified; split
    · simpa [Header.Set] using hce
    · exact hce
  have hv1 : ∀ k, k ≠ "Last-Modified" →
      (setLastModified lib w t).handlerHeader.vals k = w.handlerHeader.vals k := by
    intro k hk
    unfold setLastModified; split
    · simp [Header.Set, hk]
    · rfl
  have hb1 : (setLastModified lib w t).body = w.body := by
    unfold setLastModified; split <;> rfl
  unfold ServeContent
  generalize setLastModified lib w t = w1 at hw1 hreq1 hct1 hce1 hv1 hb1 ⊢
  have hmh : r.Method ≠ "HEAD" := by rw [hm]; decide
  have hget : (w1.setHeader "Accept-Ranges" "bytes").handlerHeader.Get "Content-Encoding" = "" := by
    simp [Header.Get, Header.get, Header.Set, hce1]
  rw [checkPreconditions_plain lib _ r t h1 h2 h3 h4 h5]
  simp only [serveRange, hct1, if_true, parseRange, sendRanges, sumRangesSize, List.map_nil,
    List.sum_nil, gt_iff_lt, Nat.not_lt_zero, if_false, writeContent, hget, hmh, ne_eq,
    not_false_eq_true, Bool.false_or, decide_True]
  refine ⟨?_, ?_, ?_⟩
  · simp [ResponseWriter.Write_status, ResponseWriter.WriteHeader_status, hw1, StatusOK]
  · rw [ResponseWriter.Write_body_of_wrote _ _ (by simp)]
    simp [ResponseWriter.WriteHeader_status, hw1, StatusOK, ResponseWriter.bodyAllowedForStatus,
      hreq1, hmh, hb1]
  · intro k hk1 hk2 hk3
    simp [ResponseWriter.Write_header, ResponseWriter.WriteHeader_header, hw1, Header.Set, hk2,
      hk3, hv1 k hk1]

theorem quoted_ne_empty (x : String) : "\"" ++ x ++ "\"" ≠ "" := by
  intro h
  have := congrArg String.data h
  simp [String.data_append] at this

/-- The revalidation branch on any table: a request that is not OPTIONS, for a path that
is a key of the table and is neither `/` nor `/health`, whose `If-None-Match`
header equals the fingerprint stored for the path, is answered with status 304,
no body, and an `ETag` header equal to that fingerprint. -/
theorem not_modified_of_match (lib : Stdlib) (r : Request) (baseFQDN : String)
    (files : GoMap fileData) (etags : GoMap String) (etag : String)
    (hm : r.Method ≠ "OPTIONS") (hroot : r.URL.Path ≠ "/") (hhealth : r.URL.Path ≠ "/health")
    (hhit : files r.URL.Path ≠ none) (hetag : etags r.URL.Path = some etag)
    (hinm : r.Header.Get "If-None-Match" = etag) :
    (serve lib r baseFQDN files etags).status = 304
    ∧ (serve lib r baseFQDN files etags).body = []
    ∧ (serve lib r baseFQDN files etags).written = 0
    ∧ (serve lib r baseFQDN files etags).header.isSet "ETag" = true
    ∧ (serve lib r baseFQDN files etags).header.Get "ETag" = etag := by
  obtain ⟨fd, hfd⟩ := Option.ne_none_iff_exists'.mp hhit
  unfold serve handleRequest
  simp only [hm, hroot, hhealth, hfd, hetag, hinm, Option.getD_some, if_false, if_true]
  by_cases hs : strings.HasSuffix r.URL.Path ".json" = true <;>
    simp [hs, ResponseWriter.WriteHeader_status, ResponseWriter.WriteHeader_header, newResponse,
      StatusNotModified, Header.Set, Header.Get, Header.get, Header.isSet, Header.has]

/-! ## The request resolver and the content loader, claim by claim -/

/-- Claim C1: for a table built by the loader and a GET request for one of its keys,
without conditional or `Range` headers, the response has status 200, the
content of the record as its body, `Content-Type: application/json`,
`Cache-Control: public, must-revalidate`, and the fingerprint of the record as
its `ETag`. -/
theorem hit_serves_content (lib : Stdlib) (env : World) (fuel : Nat) (st : LoadState)
    (r : Request) (baseFQDN : String) (fd : fileData)
    (hload : loadJSONFiles env fuel "json" "" LoadState.empty = some (st, none))
    (hm : r.Method = "GET") (hhit : st.files r.URL.Path = some fd)
    (h1 : r.Header.isSet "If-None-Match" = false) (h2 : r.Header.isSet "If-Match" = false)
    (h3 : r.Header.isSet "If-Modified-Since" = false)
    (h4 : r.Header.isSet "If-Unmodified-Since" = false)
    (_h5 : r.Header.isSet "If-Range" = false) (h6 : r.Header.isSet "Range" = false) :
    (serve lib r baseFQDN st.files st.etags).status = 200
    ∧ (serve lib r baseFQDN st.files st.etags).body = fd.content
    ∧ (serve lib r baseFQDN st.files st.etags).header.Get "Content-Type" = "application/json"
    ∧ (serve lib r baseFQDN st.files st.etags).header.Get "Cache-Control"
        = "public, must-revalidate"
    ∧ st.etags r.URL.Path = some ((serve lib r baseFQDN st.files st.etags).header.Get "ETag")
    ∧ (serve lib r baseFQDN st.files st.etags).header.Get "ETag"
        = "\"" ++ hexLower (md5.Sum fd.content) ++ "\"" := by
  have hinv := loadJSONFiles_inv env fuel "json" "" _ st none LoadInv_empty hload r.URL.Path
  rw [hhit] at hinv
  obtain ⟨hsuf, hetag⟩ := hinv
  have hroot : r.URL.Path ≠ "/" := by
    intro h; rw [h] at hsuf; exact absurd hsuf (by decide)
  have hhealth : r.URL.Path ≠ "/health" := by
    intro h; rw [h] at hsuf; exact absurd hsuf (by decide)
  have hopt : r.Method ≠ "OPTIONS" := by rw [hm]; decide
  have hinm : ¬ r.Header.Get "If-None-Match" = "\"" ++ hexLower (md5.Sum fd.content) ++ "\"" := by
    rw [Get_of_not_isSet _ _ h1]
    exact fun h => quoted_ne_empty _ h.symm
  have key := ServeContent_plain lib
    (((((((newResponse r).setHeader "Access-Control-Allow-Origin" "*").setHeader
      "Access-Control-Allow-Methods" "GET, HEAD, OPTIONS").setHeader
      "Access-Control-Allow-Headers" "Origin, X-Requested-With, Content-Type, Accept").setHeader
      "Content-Type" "application/json").setHeader "Cache-Control" "public, must-revalidate").setHeader
      "ETag" ("\"" ++ hexLower (md5.Sum fd.content) ++ "\""))
    r (filepath.Base r.URL.Path) fd.modTime fd.content (by simp [newResponse])
    (by simp [newResponse]) hm (by simp [Header.has, Header.Set])
    (by simp [Header.Set, newResponse, Header.empty])
    (Get_of_not_isSet _ _ h2) (Get_of_not_isSet _ _ h4) (Get_of_not_isSet _ _ h1)
    (Get_of_not_isSet _ _ h3) (Get_of_not_isSet _ _ h6)
  have hserve : serve lib r baseFQDN st.files st.etags = ServeContent lib
      (((((((newResponse r).setHeader "Access-Control-Allow-Origin" "*").setHeader
        "Access-Control-Allow-Methods" "GET, HEAD, OPTIONS").setHeader
        "Access-Control-Allow-Headers" "Origin, X-Requested-With, Content-Type, Accept").setHeader
        "Content-Type" "application/json").setHeader "Cache-Control"
        "public, must-revalidate").setHeader
        "ETag" ("\"" ++ hexLower (md5.Sum fd.content) ++ "\""))
      r (filepath.Base r.URL.Path) fd.modTime fd.content := by
    unfold serve handleRequest
    simp only [hopt, hroot, hhealth, hhit, hetag, hsuf, hinm, Option.getD_some, if_false, if_true]
  rw [hserve]
  obtain ⟨ks, kb, kh⟩ := key
  have hE := kh "Etag" (by decide) (by decide) (by decide)
  have hT := kh "Content-Type" (by decide) (by decide) (by decide)
  have hC := kh "Cache-Control" (by decide) (by decide) (by decide)
  have gE : (ServeContent lib
      (((((((newResponse r).setHeader "Access-Control-Allow-Origin" "*").setHeader
        "Access-Control-Allow-Methods" "GET, HEAD, OPTIONS").setHeader
        "Access-Control-Allow-Headers" "Origin, X-Requested-With, Content-Type, Accept").setHeader
        "Content-Type" "application/json").setHeader "Cache-Control"
        "public, must-revalidate").setHeader
        "ETag" ("\"" ++ hexLower (md5.Sum fd.content) ++ "\""))
      r (filepath.Base r.URL.Path) fd.modTime fd.content).header.Get "ETag"
        = "\"" ++ hexLower (md5.Sum fd.content) ++ "\"" := by
    simp [Header.Get, Header.get, hE, Header.Set]
  refine ⟨ks, ?_, ?_, ?_, ?_, gE⟩
  · simpa [newResponse] using kb
  · simp [Header.Get, Header.get, hT, Header.Set]
  · simp [Header.Get, Header.get, hC, Header.Set]
  · rw [gE]; exact hetag

/-- Claim C1 on the sample bundle: `GET /a/b.json` gets the document, as JSON, with its
fingerprint. -/
theorem hit_serves_content_witness :
    loadJSONFiles (sampleWorld sampleBundle) 2 "json" "" LoadState.empty
      = some (sampleLoaded, none)
    ∧ (sampleRequest "GET" "/a/b.json" "" Header.empty).Method = "GET"
    ∧ sampleLoaded.files (sampleRequest "GET" "/a/b.json" "" Header.empty).URL.Path
      = some ⟨sampleContent, 1767225600000000000⟩
    ∧ (serve sampleStdlib (sampleRequest "GET" "/a/b.json" "" Header.empty) "coolify.io"
        sampleLoaded.files sampleLoaded.etags).status = 200
    ∧ (serve sampleStdlib (sampleRequest "GET" "/a/b.json" "" Header.empty) "coolify.io"
        sampleLoaded.files sampleLoaded.etags).body = bytesOf "\x7b\"x\":1\x7d"
    ∧ (serve sampleStdlib (sampleRequest "GET" "/a/b.json" "" Header.empty) "coolify.io"
        sampleLoaded.files sampleLoaded.etags).header.Get "Content-Type" = "application/json"
    ∧ (serve sampleStdlib (sampleRequest "GET" "/a/b.json" "" Header.empty) "coolify.io"
        sampleLoaded.files sampleLoaded.etags).header.Get "Cache-Control"
        = "public, must-revalidate"
    ∧ (serve sampleStdlib (sampleRequest "GET" "/a/b.json" "" Header.empty) "coolify.io"
        sampleLoaded.files sampleLoaded.etags).header.Get "ETag"
        = "\"" ++ hexLower (md5.Sum sampleContent) ++ "\"" :=
  have h := hit_serves_content sampleStdlib (sampleWorld sampleBundle) 2 sampleLoaded
    (sampleRequest "GET" "/a/b.json" "" Header.empty) "coolify.io"
    ⟨sampleContent, 1767225600000000000⟩ rfl rfl rfl rfl rfl rfl rfl rfl rfl
  ⟨rfl, rfl, rfl, h.1, h.2.1, h.2.2.1, h.2.2.2.1, h.2.2.2.2.2⟩

/-- Claim C2: for the document table, the one `loadJSONFiles` builds, and a request that
is not OPTIONS, for a path that is a key of the table, whose `If-None-Match`
header is exactly the fingerprint stored for the path, the response has status
304, no body (the handler writes none), and an `ETag` header equal to that
fingerprint, which is the quoted MD5 checksum of the content of the record. -/
theorem revalidation_not_modified (lib : Stdlib) (env : World) (fuel : Nat) (st : LoadState)
    (r : Request) (baseFQDN : String) (etag : String)
    (hload : loadJSONFiles env fuel "json" "" LoadState.empty = some (st, none))
    (hm : r.Method ≠ "OPTIONS") (hhit : st.files r.URL.Path ≠ none)
    (hetag : st.etags r.URL.Path = some etag)
    (hinm : r.Header.Get "If-None-Match" = etag) :
    (serve lib r baseFQDN st.files st.etags).status = 304
    ∧ (serve lib r baseFQDN st.files st.etags).body = []
    ∧ (serve lib r baseFQDN st.files st.etags).written = 0
    ∧ (serve lib r baseFQDN st.files st.etags).header.isSet "ETag" = true
    ∧ (serve lib r baseFQDN st.files st.etags).header.Get "ETag" = etag
    ∧ ∃ fd, st.files r.URL.Path = some fd
        ∧ etag = "\"" ++ hexLower (md5.Sum fd.content) ++ "\"" := by
  obtain ⟨hroot, hhealth⟩ := loader_keys_not_special env fuel st none hload r.URL.Path hhit
  obtain ⟨h1, h2, h3, h4, h5⟩ := not_modified_of_match lib r baseFQDN st.files st.etags etag
    hm hroot hhealth hhit hetag hinm
  refine ⟨h1, h2, h3, h4, h5, ?_⟩
  obtain ⟨fd, hfd⟩ := Option.ne_none_iff_exists'.mp hhit
  have hinv := loadJSONFiles_inv env fuel "json" "" _ st none LoadInv_empty hload r.URL.Path
  rw [hfd] at hinv
  refine ⟨fd, hfd, ?_⟩
  have := hinv.2
  rw [hetag] at this
  simpa using this

/-- Claim C2 on the sample bundle: `GET /a/b.json` with the fingerprint in
`If-None-Match` gets 304, no body, and the fingerprint again. -/
theorem revalidation_not_modified_witness :
    loadJSONFiles (sampleWorld sampleBundle) 2 "json" "" LoadState.empty
      = some (sampleLoaded, none)
    ∧ (sampleRequest "GET" "/a/b.json" "" (Header.empty.Set "If-None-Match" sampleETag)).Method
      ≠ "OPTIONS"
    ∧ sampleLoaded.files
        (sampleRequest "GET" "/a/b.json" "" (Header.empty.Set "If-None-Match" sampleETag)).URL.Path
      ≠ none
    ∧ sampleLoaded.etags
        (sampleRequest "GET" "/a/b.json" "" (Header.empty.Set "If-None-Match" sampleETag)).URL.Path
      = some sampleETag
    ∧ (sampleRequest "GET" "/a/b.json" ""
        (Header.empty.Set "If-None-Match" sampleETag)).Header.Get "If-None-Match" = sampleETag
    ∧ (serve sampleStdlib
        (sampleRequest "GET" "/a/b.json" "" (Header.empty.Set "If-None-Match" sampleETag))
        "coolify.io" sampleLoaded.files sampleLoaded.etags).status = 304
    ∧ (serve sampleStdlib
        (sampleRequest "GET" "/a/b.json" "" (Header.empty.Set "If-None-Match" sampleETag))
        "coolify.io" sampleLoaded.files sampleLoaded.etags).body = []
    ∧ (serve sampleStdlib
        (sampleRequest "GET" "/a/b.json" "" (Header.empty.Set "If-None-Match" sampleETag))
        "coolify.io" sampleLoaded.files sampleLoaded.etags).header.Get "ETag" = sampleETag :=
  have h := revalidation_not_modified sampleStdlib (sampleWorld sampleBundle) 2 sampleLoaded
    (sampleRequest "GET" "/a/b.json" "" (Header.empty.Set "If-None-Match" sampleETag))
    "coolify.io" sampleETag rfl (by decide) (by decide) rfl rfl
  ⟨rfl, by decide, by decide, rfl, rfl, h.1, h.2.1, h.2.2.2.2.1⟩

/-- Claim C3, as the code has it: a request that is not OPTIONS, for a path that is
neither `/` nor `/health` nor a key of the table, is answered with status 302,
never 404, and a `Location` that is `https://`, the base domain and the request
URI as the client sent it, query string included, with every non-ASCII byte
percent-escaped; it is that text verbatim when the base domain and the URI are
ASCII. -/
theorem miss_redirects (lib : Stdlib) (r : Request) (baseFQDN : String)
    (files : GoMap fileData) (etags : GoMap String)
    (hm : r.Method ≠ "OPTIONS") (hroot : r.URL.Path ≠ "/") (hhealth : r.URL.Path ≠ "/health")
    (hmiss : files r.URL.Path = none) :
    (serve lib r baseFQDN files etags).status = 302
    ∧ (serve lib r baseFQDN files etags).status ≠ 404
    ∧ (serve lib r baseFQDN files etags).header.Get "Location"
        = hexEscapeNonASCII ("https://" ++ baseFQDN ++ r.RequestURI)
    ∧ (isASCII baseFQDN = true → isASCII r.RequestURI = true →
        (serve lib r baseFQDN files etags).header.Get "Location"
          = "https://" ++ baseFQDN ++ r.RequestURI) := by
  have hst : (serve lib r baseFQDN files etags).status = 302 := by
    simp [serve, handleRequest, hm, hroot, hhealth, hmiss, Redirect, String.append_assoc,
      getScheme_https, ResponseWriter.Write_status, ResponseWriter.WriteHeader_status,
      newResponse, StatusFound, Header.has, Header.Set, Header.empty]
    split_ifs <;> simp [ResponseWriter.Write_status, ResponseWriter.WriteHeader_status, newResponse]
  have hloc : (serve lib r baseFQDN files etags).header.Get "Location"
      = hexEscapeNonASCII ("https://" ++ baseFQDN ++ r.RequestURI) := by
    simp [serve, handleRequest, hm, hroot, hhealth, hmiss, Redirect, String.append_assoc,
      getScheme_https, newResponse, StatusFound, Header.has, Header.Set, Header.empty]
    split_ifs <;>
      simp [ResponseWriter.Write_header, ResponseWriter.WriteHeader_header, newResponse,
        Header.Set, Header.Get, Header.get]
  refine ⟨hst, by rw [hst]; decide, hloc, ?_⟩
  intro ha hu
  rw [hloc]
  exact hexEscapeNonASCII_of_isASCII _ (by simp [isASCII_append, ha, hu]; decide)

/-- Claim C3 with `BASE_FQDN` unset: `GET /missing` is sent to
`https://coolify.io/missing`. -/
theorem miss_redirects_witness :
    (sampleRequest "GET" "/missing" "" Header.empty).Method ≠ "OPTIONS"
    ∧ (sampleRequest "GET" "/missing" "" Header.empty).URL.Path ≠ "/"
    ∧ (sampleRequest "GET" "/missing" "" Header.empty).URL.Path ≠ "/health"
    ∧ sampleLoaded.files (sampleRequest "GET" "/missing" "" Header.empty).URL.Path = none
    ∧ (serve sampleStdlib (sampleRequest "GET" "/missing" "" Header.empty) (baseFQDNOf "")
        sampleLoaded.files sampleLoaded.etags).status = 302
    ∧ (serve sampleStdlib (sampleRequest "GET" "/missing" "" Header.empty) (baseFQDNOf "")
        sampleLoaded.files sampleLoaded.etags).header.Get "Location"
        = "https://" ++ "coolify.io" ++ "/missing" :=
  have h := miss_redirects sampleStdlib (sampleRequest "GET" "/missing" "" Header.empty)
    (baseFQDNOf "") sampleLoaded.files sampleLoaded.etags (by decide) (by decide) (by decide)
    (by decide)
  ⟨by decide, by decide, by decide, by decide, h.1, h.2.2.2 (by decide) (by decide)⟩

/-- Claim C3 as stated fails for a request URI with a non-ASCII byte: the `Location`
carries the URI percent-escaped, not verbatim. -/
theorem miss_location_counterexample :
    (sampleRequest "GET" "/caf\u00e9" "" Header.empty).Method ≠ "OPTIONS"
    ∧ (sampleRequest "GET" "/caf\u00e9" "" Header.empty).URL.Path ≠ "/"
    ∧ (sampleRequest "GET" "/caf\u00e9" "" Header.empty).URL.Path ≠ "/health"
    ∧ sampleLoaded.files (sampleRequest "GET" "/caf\u00e9" "" Header.empty).URL.Path = none
    ∧ (serve sampleStdlib (sampleRequest "GET" "/caf\u00e9" "" Header.empty) "coolify.io"
        sampleLoaded.files sampleLoaded.etags).header.Get "Location"
        = "https://coolify.io/caf%c3%a9"
    ∧ (serve sampleStdlib (sampleRequest "GET" "/caf\u00e9" "" Header.empty) "coolify.io"
        sampleLoaded.files sampleLoaded.etags).header.Get "Location"
        ≠ "https://" ++ "coolify.io"
          ++ (sampleRequest "GET" "/caf\u00e9" "" Header.empty).RequestURI := by
  refine ⟨?_, ?_, ?_, ?_, ?_, ?_⟩ <;> decide

/-- Claim C4, as the code has it: a GET request for the path `/`, with any query
string and any table, is answered with status 302 and a `Location` that is
`https://` followed by the base domain with every non-ASCII byte percent-escaped,
hence exactly `https://` followed by the base domain when that is ASCII; the
table is not consulted. -/
theorem root_redirects (lib : Stdlib) (r : Request) (baseFQDN : String)
    (files : GoMap fileData) (etags : GoMap String)
    (hm : r.Method = "GET") (hp : r.URL.Path = "/") :
    (serve lib r baseFQDN files etags).status = 302
    ∧ (serve lib r baseFQDN files etags).header.Get "Location"
        = hexEscapeNonASCII ("https://" ++ baseFQDN)
    ∧ (isASCII baseFQDN = true →
        (serve lib r baseFQDN files etags).header.Get "Location" = "https://" ++ baseFQDN)
    ∧ ∀ (files2 : GoMap fileData) (etags2 : GoMap String),
        serve lib r baseFQDN files2 etags2 = serve lib r baseFQDN files etags := by
  have hloc : (serve lib r baseFQDN files etags).header.Get "Location"
      = hexEscapeNonASCII ("https://" ++ baseFQDN) := by
    simp [serve, handleRequest, hm, hp, Redirect, getScheme_https,
      ResponseWriter.Write_header, ResponseWriter.WriteHeader_header, newResponse, StatusFound,
      Header.has, Header.Set, Header.Get, Header.get, Header.empty]
  refine ⟨?_, hloc, ?_, ?_⟩
  · simp [serve, handleRequest, hm, hp, Redirect, getScheme_https,
      ResponseWriter.Write_status, ResponseWriter.WriteHeader_status, newResponse, StatusFound,
      Header.has, Header.Set, Header.empty]
  · intro ha
    rw [hloc]
    exact hexEscapeNonASCII_of_isASCII _ (by simp [isASCII_append, ha]; decide)
  · intro files2 etags2
    simp [serve, handleRequest, hm, hp]

/-- Claim C4 on a table that has the key `/`: `GET /?utm=1` is sent to
`https://coolify.io`. -/
theorem root_redirects_witness :
    (sampleRequest "GET" "/" "utm=1" Header.empty).Method = "GET"
    ∧ (sampleRequest "GET" "/" "utm=1" Header.empty).URL.Path = "/"
    ∧ (serve sampleStdlib (sampleRequest "GET" "/" "utm=1" Header.empty) "coolify.io"
        shadowFiles shadowETags).status = 302
    ∧ (serve sampleStdlib (sampleRequest "GET" "/" "utm=1" Header.empty) "coolify.io"
        shadowFiles shadowETags).header.Get "Location" = "https://" ++ "coolify.io" :=
  have h := root_redirects sampleStdlib (sampleRequest "GET" "/" "utm=1" Header.empty)
    "coolify.io" shadowFiles shadowETags rfl rfl
  ⟨rfl, rfl, h.1, h.2.2.1 (by decide)⟩

/-- Claim C4 as stated fails for a base domain that is not ASCII: the `Location` of the
redirect is not `https://` followed by the base domain. -/
theorem root_location_counterexample :
    (sampleRequest "GET" "/" "" Header.empty).Method = "GET"
    ∧ (sampleRequest "GET" "/" "" Header.empty).URL.Path = "/"
    ∧ (serve sampleStdlib (sampleRequest "GET" "/" "" Header.empty) "m\u00fcnchen.example"
        GoMap.empty GoMap.empty).header.Get "Location" = "https://m%c3%bcnchen.example"
    ∧ (serve sampleStdlib (sampleRequest "GET" "/" "" Header.empty) "m\u00fcnchen.example"
        GoMap.empty GoMap.empty).header.Get "Location" ≠ "https://" ++ "m\u00fcnchen.example" := by
  refine ⟨rfl, rfl, ?_, ?_⟩ <;> decide

/-- Claim C5: an OPTIONS request, whatever its path, its headers and the table, is
answered with status 204, no body, no `Location`, `ETag` or `Cache-Control`
header, and the three CORS headers. -/
theorem options_no_content (lib : Stdlib) (r : Request) (baseFQDN : String)
    (files : GoMap fileData) (etags : GoMap String) (hm : r.Method = "OPTIONS") :
    (serve lib r baseFQDN files etags).wroteHeader = true
    ∧ (serve lib r baseFQDN files etags).status = 204
    ∧ (serve lib r baseFQDN files etags).body = []
    ∧ (serve lib r baseFQDN files etags).header.isSet "Location" = false
    ∧ (serve lib r baseFQDN files etags).header.isSet "ETag" = false
    ∧ (serve lib r baseFQDN files etags).header.isSet "Cache-Control" = false
    ∧ (serve lib r baseFQDN files etags).header.Get "Access-Control-Allow-Origin" = "*"
    ∧ (serve lib r baseFQDN files etags).header.Get "Access-Control-Allow-Methods"
        = "GET, HEAD, OPTIONS"
    ∧ (serve lib r baseFQDN files etags).header.Get "Access-Control-Allow-Headers"
        = "Origin, X-Requested-With, Content-Type, Accept"
    ∧ (serve lib r baseFQDN files etags).handlerHeader.isSet "Location" = false
    ∧ (serve lib r baseFQDN files etags).handlerHeader.isSet "ETag" = false
    ∧ (serve lib r baseFQDN files etags).handlerHeader.isSet "Cache-Control" = false := by
  simp [serve, handleRequest, hm, ResponseWriter.WriteHeader, ResponseWriter.setHeader,
    newResponse, StatusNoContent, Header.isSet, Header.has, Header.Set, Header.Get, Header.get,
    Header.empty]

/-- Claim C5 on the path `/health` of a table that has this key: `OPTIONS` gets 204 and
no body. -/
theorem options_no_content_witness :
    (sampleRequest "OPTIONS" "/health" "" Header.empty).Method = "OPTIONS"
    ∧ (serve sampleStdlib (sampleRequest "OPTIONS" "/health" "" Header.empty) "coolify.io"
        shadowFiles shadowETags).status = 204
    ∧ (serve sampleStdlib (sampleRequest "OPTIONS" "/health" "" Header.empty) "coolify.io"
        shadowFiles shadowETags).body = [] :=
  have h := options_no_content sampleStdlib (sampleRequest "OPTIONS" "/health" "" Header.empty)
    "coolify.io" shadowFiles shadowETags rfl
  ⟨rfl, h.2.1, h.2.2.1⟩

/-- Claim C6: whatever the request and the table, the response that goes out, on
every branch of `handleRequest`, carries the three CORS headers with their
values, and they still stand in the live header map when the handler returns. -/
theorem cors_on_every_response (lib : Stdlib) (r : Request) (baseFQDN : String)
    (files : GoMap fileData) (etags : GoMap String) :
    (serve lib r baseFQDN files etags).wroteHeader = true
    ∧ (serve lib r baseFQDN files etags).header.Get "Access-Control-Allow-Origin" = "*"
    ∧ (serve lib r baseFQDN files etags).header.Get "Access-Control-Allow-Methods"
        = "GET, HEAD, OPTIONS"
    ∧ (serve lib r baseFQDN files etags).header.Get "Access-Control-Allow-Headers"
        = "Origin, X-Requested-With, Content-Type, Accept"
    ∧ HasCORS (serve lib r baseFQDN files etags).header
    ∧ HasCORS (serve lib r baseFQDN files etags).handlerHeader := by
  obtain ⟨⟨hlive, hsent⟩, hwrote⟩ :=
    KeepsCORS_handleRequest lib (newResponse r) r baseFQDN files etags rfl
  have hs := hsent hwrote
  refine ⟨hwrote, ?_, ?_, ?_, hs, hlive⟩
  · simp [serve, Header.Get, Header.get, hs.1]
  · simp [serve, Header.Get, Header.get, hs.2.1]
  · simp [serve, Header.Get, Header.get, hs.2.2]

/-- Claim C7, as the code has it: a request that is not OPTIONS, for the path `/health`,
is answered with status 200 and `Content-Type: text/plain`, without `ETag` or
`Cache-Control`, whatever the table and the request headers; the handler writes
the eight bytes of `healthy\n` in every case, and they are the body of the
response, except for a HEAD request, whose body is empty. -/
theorem health_check (lib : Stdlib) (r : Request) (baseFQDN : String)
    (files : GoMap fileData) (etags : GoMap String)
    (hm : r.Method ≠ "OPTIONS") (hp : r.URL.Path = "/health") :
    (serve lib r baseFQDN files etags).status = 200
    ∧ (serve lib r baseFQDN files etags).header.Get "Content-Type" = "text/plain"
    ∧ (serve lib r baseFQDN files etags).body
        = (if r.Method = "HEAD" then [] else bytesOf "healthy\n")
    ∧ (serve lib r baseFQDN files etags).written = (bytesOf "healthy\n").length
    ∧ (serve lib r baseFQDN files etags).header.isSet "ETag" = false
    ∧ (serve lib r baseFQDN files etags).header.isSet "Cache-Control" = false
    ∧ (serve lib r baseFQDN files etags).handlerHeader.isSet "ETag" = false
    ∧ (serve lib r baseFQDN files etags).handlerHeader.isSet "Cache-Control" = false
    ∧ ∀ (files2 : GoMap fileData) (etags2 : GoMap String) (header2 : Header),
        (serve lib { r with Header := header2 } baseFQDN files2 etags2).status = 200
        ∧ (serve lib { r with Header := header2 } baseFQDN files2 etags2).header.vals
            = (serve lib r baseFQDN files etags).header.vals
        ∧ (serve lib { r with Header := header2 } baseFQDN files2 etags2).body
            = (serve lib r baseFQDN files etags).body := by
  have hne : r.URL.Path ≠ "/" := by rw [hp]; decide
  have hbody : ∀ (r2 : Request) (f2 : GoMap fileData) (e2 : GoMap String),
      r2.Method = r.Method → r2.URL.Path = "/health" →
      (serve lib r2 baseFQDN f2 e2).body
        = (if r.Method = "HEAD" then [] else bytesOf "healthy\n") := by
    intro r2 f2 e2 h1 h2
    have hm2 : r2.Method ≠ "OPTIONS" := by rw [h1]; exact hm
    have hne2 : r2.URL.Path ≠ "/" := by rw [h2]; decide
    simp only [serve, handleRequest, hm2, h2, if_true, if_false]
    rw [if_neg (by decide), ResponseWriter.Write_body_of_wrote _ _ (by simp)]
    simp [ResponseWriter.WriteHeader_status, newResponse, StatusOK,
      ResponseWriter.bodyAllowedForStatus, h1]
  refine ⟨?_, ?_, hbody r files etags rfl hp, ?_, ?_, ?_, ?_, ?_, ?_⟩
  · simp [serve, handleRequest, hm, hne, hp, ResponseWriter.Write_status,
      ResponseWriter.WriteHeader_status, newResponse, StatusOK]
  · simp [serve, handleRequest, hm, hne, hp, ResponseWriter.Write_header,
      ResponseWriter.WriteHeader_header, newResponse, Header.Set, Header.Get, Header.get]
  · simp only [serve, handleRequest, hm, hp, if_true, if_false]
    rw [if_neg (by decide), ResponseWriter.Write_written_of_wrote _ _ (by simp)]
    simp [ResponseWriter.WriteHeader_status, newResponse, StatusOK,
      ResponseWriter.bodyAllowedForStatus]
  · simp [serve, handleRequest, hm, hne, hp, ResponseWriter.Write_header,
      ResponseWriter.WriteHeader_header, newResponse, Header.Set, Header.isSet, Header.has,
      Header.empty]
  · simp [serve, handleRequest, hm, hne, hp, ResponseWriter.Write_header,
      ResponseWriter.WriteHeader_header, newResponse, Header.Set, Header.isSet, Header.has,
      Header.empty]
  · simp [serve, handleRequest, hm, hne, hp, newResponse, Header.Set, Header.isSet, Header.has,
      Header.empty]
  · simp [serve, handleRequest, hm, hne, hp, newResponse, Header.Set, Header.isSet, Header.has,
      Header.empty]
  · intro files2 etags2 header2
    refine ⟨?_, ?_, ?_⟩
    · simp [serve, handleRequest, hm, hne, hp, ResponseWriter.Write_status,
        ResponseWriter.WriteHeader_status, newResponse, StatusOK]
    · simp [serve, handleRequest, hm, hne, hp, ResponseWriter.Write_header,
        ResponseWriter.WriteHeader_header, newResponse]
    · exact (hbody { r with Header := header2 } files2 etags2 rfl hp).trans
        (hbody r files etags rfl hp).symm

/-- Claim C7 on a table that has the key `/health`, for a request with the matching
`If-None-Match`: `GET /health` gets 200 and the body `healthy\n`. -/
theorem health_check_witness :
    (sampleRequest "GET" "/health" "" (Header.empty.Set "If-None-Match" "\"h\"")).Method
      ≠ "OPTIONS"
    ∧ (sampleRequest "GET" "/health" "" (Header.empty.Set "If-None-Match" "\"h\"")).URL.Path
      = "/health"
    ∧ (serve sampleStdlib
        (sampleRequest "GET" "/health" "" (Header.empty.Set "If-None-Match" "\"h\""))
        "coolify.io" shadowFiles shadowETags).status = 200
    ∧ (serve sampleStdlib
        (sampleRequest "GET" "/health" "" (Header.empty.Set "If-None-Match" "\"h\""))
        "coolify.io" shadowFiles shadowETags).body = bytesOf "healthy\n" :=
  have h := health_check sampleStdlib
    (sampleRequest "GET" "/health" "" (Header.empty.Set "If-None-Match" "\"h\""))
    "coolify.io" shadowFiles shadowETags (by decide) rfl
  ⟨by decide, rfl, h.1, h.2.2.1⟩

/-- Claim C7 as stated fails for a HEAD request: the handler writes its eight bytes, but
the response to `HEAD /health` has status 200 and no body, not the body
`healthy\n`. -/
theorem health_head_counterexample :
    (sampleRequest "HEAD" "/health" "" Header.empty).Method ≠ "OPTIONS"
    ∧ (sampleRequest "HEAD" "/health" "" Header.empty).URL.Path = "/health"
    ∧ (serve sampleStdlib (sampleRequest "HEAD" "/health" "" Header.empty) "coolify.io"
        GoMap.empty GoMap.empty).status = 200
    ∧ (serve sampleStdlib (sampleRequest "HEAD" "/health" "" Header.empty) "coolify.io"
        GoMap.empty GoMap.empty).written = 8
    ∧ (serve sampleStdlib (sampleRequest "HEAD" "/health" "" Header.empty) "coolify.io"
        GoMap.empty GoMap.empty).body = []
    ∧ (serve sampleStdlib (sampleRequest "HEAD" "/health" "" Header.empty) "coolify.io"
        GoMap.empty GoMap.empty).body ≠ bytesOf "healthy\n" := by
  refine ⟨?_, ?_, ?_, ?_, ?_, ?_⟩ <;> decide

/-- Claim C8: on a bundle, a tree of bounded depth, in which every read succeeds,
`loadJSONFiles("json", "", files, etags)` on empty maps returns without error and
leaves a `files` map whose keys are exactly the paths
`/d1/.../dn/name` of the files `name` ending in `.json` in the nested directories
`d1, ..., dn` (`n ≥ 0`) below the root, each with the bytes of that file; a file whose
name does not end in `.json` gives no key, and every key starts with `/` and does
not end with `/`. -/
theorem loader_key_set (env : World) (n : Nat)
    (hdepth : depthWithin env.jsonFiles n "json" = true)
    (hreads : readsSucceed env.jsonFiles n "json" = true) :
    ∃ st, loadJSONFiles env n "json" "" LoadState.empty = some (st, none)
      ∧ (∀ k, st.files k ≠ none ↔
          ∃ ds name, IsFileAt env.jsonFiles "json" ds name
            ∧ strings.HasSuffix name ".json" = true ∧ k = joinDir "" ds ++ "/" ++ name)
      ∧ (∀ ds name fd, st.files (joinDir "" ds ++ "/" ++ name) = some fd →
          env.jsonFiles.ReadFile (joinDir "json" ds ++ "/" ++ name) = .ok fd.content)
      ∧ (∀ ds name, IsFileAt env.jsonFiles "json" ds name →
          strings.HasSuffix name ".json" = false → st.files (joinDir "" ds ++ "/" ++ name) = none)
      ∧ (∀ k, st.files k ≠ none →
          strings.HasPrefix k "/" = true ∧ strings.HasSuffix k "/" = false) := by
  obtain ⟨st, res, hrun, spec⟩ := loadJSONFiles_spec env n "json" "" LoadState.empty hdepth
  obtain ⟨hdirs, hfiles⟩ := reads_ok env.jsonFiles n "json" hdepth hreads
  have hinv := loadJSONFiles_inv env n "json" "" _ st res LoadInv_empty hrun
  have hres : res = none := by
    cases res with
    | none => rfl
    | some err =>
      obtain ⟨ds, h1, h2⟩ := spec.error_of_dir err rfl
      obtain ⟨l, h3⟩ := hdirs ds h1
      rw [h3] at h2
      exact absurd h2 (by simp)
  subst hres
  have hsound : ∀ k fd, st.files k = some fd →
      ∃ ds name, IsFileAt env.jsonFiles "json" ds name
        ∧ strings.HasSuffix name ".json" = true ∧ k = joinDir "" ds ++ "/" ++ name
        ∧ env.jsonFiles.ReadFile (joinDir "json" ds ++ "/" ++ name) = .ok fd.content := by
    intro k fd hk
    rcases spec.sound k fd hk with h1 | h1
    · simp [LoadState.empty, GoMap.empty] at h1
    · exact h1
  have hjson : ∀ k, st.files k ≠ none → strings.HasSuffix k ".json" = true := by
    intro k hk
    obtain ⟨fd, hfd⟩ := Option.ne_none_iff_exists'.mp hk
    have := hinv k
    rw [hfd] at this
    exact this.1
  refine ⟨st, hrun, ?_, ?_, ?_, ?_⟩
  · intro k
    constructor
    · intro hk
      obtain ⟨fd, hfd⟩ := Option.ne_none_iff_exists'.mp hk
      obtain ⟨ds, name, h1, h2, h3, _⟩ := hsound k fd hfd
      exact ⟨ds, name, h1, h2, h3⟩
    · rintro ⟨ds, name, h1, h2, h3⟩
      obtain ⟨c, hc⟩ := hfiles ds name h1 h2
      rw [h3]
      exact spec.loaded rfl ds name c h1 h2 hc
  · intro ds name fd hk
    obtain ⟨ds1, name1, _, _, h3, h4⟩ := hsound _ fd hk
    rw [path_eq_root_key] at h4 ⊢
    rw [h3]
    exact h4
  · intro ds name _ hs
    cases hk : st.files (joinDir "" ds ++ "/" ++ name) with
    | none => rfl
    | some fd =>
      have h1 := hjson (joinDir "" ds ++ "/" ++ name) (by rw [hk]; simp)
      have h2 := name_json_of_key_json _ _ h1
      rw [hs] at h2
      exact absurd h2 (by decide)
  · intro k hk
    have hj := hjson k hk
    refine ⟨?_, not_slash_of_json k hj⟩
    obtain ⟨fd, hfd⟩ := Option.ne_none_iff_exists'.mp hk
    obtain ⟨ds, name, _, _, h3, _⟩ := hsound k fd hfd
    rw [h3]
    exact key_starts_with_slash ds name

/-- Claim C8 on the sample bundle: `a/b.json` gives the key `/a/b.json`, `README.md` gives
none. -/
theorem loader_key_set_witness :
    depthWithin (sampleWorld sampleBundle).jsonFiles 2 "json" = true
    ∧ readsSucceed (sampleWorld sampleBundle).jsonFiles 2 "json" = true
    ∧ ∃ st, loadJSONFiles (sampleWorld sampleBundle) 2 "json" "" LoadState.empty = some (st, none)
        ∧ st.files "/a/b.json" ≠ none
        ∧ st.files "/README.md" = none :=
  ⟨by decide, by decide,
    (loader_key_set (sampleWorld sampleBundle) 2 (by decide) (by decide)).imp fun st h =>
      ⟨h.1,
        (h.2.1 "/a/b.json").mpr ⟨["a"], "b.json",
          ⟨⟨_, rfl, by decide⟩, ⟨_, rfl, by decide⟩⟩, by decide, by decide⟩,
        h.2.2.2.1 [] "README.md" ⟨_, rfl, by decide⟩ (by decide)⟩⟩

/-- Claim C9: after `loadJSONFiles` ran on empty maps, `files` and `etags` have the same
keys, and the fingerprint of each key is the MD5 checksum of the content of its
record, in lowercase hexadecimal digits between double quotes; so it is not empty,
and records of equal content have equal fingerprints, whatever their paths, their
load times and the runs that loaded them. -/
theorem fingerprint_of_content (env1 env2 : World) (n1 n2 : Nat)
    (hdepth1 : depthWithin env1.jsonFiles n1 "json" = true)
    (hdepth2 : depthWithin env2.jsonFiles n2 "json" = true) :
    ∃ st1 res1 st2 res2,
      loadJSONFiles env1 n1 "json" "" LoadState.empty = some (st1, res1)
      ∧ loadJSONFiles env2 n2 "json" "" LoadState.empty = some (st2, res2)
      ∧ (∀ p, st1.files p = none ↔ st1.etags p = none)
      ∧ (∀ p fd, st1.files p = some fd →
          st1.etags p = some ("\"" ++ hexLower (md5.Sum fd.content) ++ "\""))
      ∧ (∀ p e, st1.etags p = some e → e ≠ "")
      ∧ (∀ p q fd1 fd2, st1.files p = some fd1 → st2.files q = some fd2 →
          fd1.content = fd2.content → st1.etags p = st2.etags q) := by
  obtain ⟨st1, res1, hrun1, _⟩ := loadJSONFiles_spec env1 n1 "json" "" LoadState.empty hdepth1
  obtain ⟨st2, res2, hrun2, _⟩ := loadJSONFiles_spec env2 n2 "json" "" LoadState.empty hdepth2
  have hinv1 := loadJSONFiles_inv env1 n1 "json" "" _ st1 res1 LoadInv_empty hrun1
  have hinv2 := loadJSONFiles_inv env2 n2 "json" "" _ st2 res2 LoadInv_empty hrun2
  have hfp1 : ∀ p fd, st1.files p = some fd →
      st1.etags p = some ("\"" ++ hexLower (md5.Sum fd.content) ++ "\"") := by
    intro p fd h
    have := hinv1 p
    rw [h] at this
    exact this.2
  have hfp2 : ∀ p fd, st2.files p = some fd →
      st2.etags p = some ("\"" ++ hexLower (md5.Sum fd.content) ++ "\"") := by
    intro p fd h
    have := hinv2 p
    rw [h] at this
    exact this.2
  refine ⟨st1, res1, st2, res2, hrun1, hrun2, ?_, hfp1, ?_, ?_⟩
  · intro p
    have := hinv1 p
    cases hf : st1.files p with
    | none => rw [hf] at this; simp [this]
    | some fd => rw [hf] at this; simp [this.2]
  · intro p e he
    have := hinv1 p
    cases hf : st1.files p with
    | none => rw [hf] at this; simp [this] at he
    | some fd =>
      rw [hf] at this
      rw [this.2] at he
      have : "\"" ++ hexLower (md5.Sum fd.content) ++ "\"" = e := by simpa using he
      rw [← this]
      exact quoted_ne_empty _
  · intro p q fd1 fd2 h1 h2 hc
    rw [hfp1 p fd1 h1, hfp2 q fd2 h2, hc]

/-- Claim C9 on two runs, one over the sample bundle and one over the bundle with an
unreadable file: the document they share has the same fingerprint in both. -/
theorem fingerprint_of_content_witness :
    depthWithin (sampleWorld sampleBundle).jsonFiles 2 "json" = true
    ∧ depthWithin (sampleWorld brokenFileBundle).jsonFiles 3 "json" = true
    ∧ ∃ st1 res1 st2 res2,
        loadJSONFiles (sampleWorld sampleBundle) 2 "json" "" LoadState.empty = some (st1, res1)
        ∧ loadJSONFiles (sampleWorld brokenFileBundle) 3 "json" "" LoadState.empty
            = some (st2, res2)
        ∧ (∀ p, st1.files p = none ↔ st1.etags p = none)
        ∧ st1.etags "/a/b.json" = some ("\"" ++ hexLower (md5.Sum sampleContent) ++ "\"")
        ∧ st1.etags "/a/b.json" = st2.etags "/a/b.json" :=
  ⟨by decide, by decide,
    match fingerprint_of_content (sampleWorld sampleBundle) (sampleWorld brokenFileBundle) 2 3
      (by decide) (by decide) with
    | ⟨st1, res1, st2, res2, hrun1, hrun2, hkeys, hfp, _, hsame⟩ =>
      have h1 : (loadJSONFiles (sampleWorld sampleBundle) 2 "json" "" LoadState.empty).map
          (fun x => x.1.files "/a/b.json") = some (some ⟨sampleContent, 1767225600000000000⟩) :=
        rfl
      have h2 : (loadJSONFiles (sampleWorld brokenFileBundle) 3 "json" "" LoadState.empty).map
          (fun x => x.1.files "/a/b.json") = some (some ⟨sampleContent, 1767225600000000000⟩) :=
        rfl
      have f1 : st1.files "/a/b.json" = some ⟨sampleContent, 1767225600000000000⟩ := by
        rw [hrun1] at h1; simpa using h1
      have f2 : st2.files "/a/b.json" = some ⟨sampleContent, 1767225600000000000⟩ := by
        rw [hrun2] at h2; simpa using h2
      have e1 : st1.etags "/a/b.json"
          = some ("\"" ++ hexLower (md5.Sum sampleContent) ++ "\"") := by
        rw [hfp _ _ f1]
      ⟨st1, res1, st2, res2, hrun1, hrun2, hkeys, e1, hsame _ _ _ _ f1 f2 rfl⟩⟩

/-- Claim C10: on a bundle of bounded depth, `loadJSONFiles` returns an error exactly
when the read of a directory of the bundle, the root or a nested one, fails, and
the error is the read error of such a directory. A file that fails to read never
makes it return an error: its path is absent from both maps, and when no
directory fails every `.json` file that reads is loaded under its key with its
content. -/
theorem loader_error_iff_directory (env : World) (n : Nat)
    (hdepth : depthWithin env.jsonFiles n "json" = true) :
    ∃ st res, loadJSONFiles env n "json" "" LoadState.empty = some (st, res)
      ∧ (res ≠ none ↔ ∃ ds err, IsDirAt env.jsonFiles "json" ds
          ∧ env.jsonFiles.ReadDir (joinDir "json" ds) = .error err)
      ∧ (∀ err, res = some err → ∃ ds, IsDirAt env.jsonFiles "json" ds
          ∧ env.jsonFiles.ReadDir (joinDir "json" ds) = .error err)
      ∧ (∀ ds name err,
          env.jsonFiles.ReadFile (joinDir "json" ds ++ "/" ++ name) = .error err →
          st.files (joinDir "" ds ++ "/" ++ name) = none
            ∧ st.etags (joinDir "" ds ++ "/" ++ name) = none)
      ∧ (res = none → ∀ ds name c, IsFileAt env.jsonFiles "json" ds name →
          strings.HasSuffix name ".json" = true →
          env.jsonFiles.ReadFile (joinDir "json" ds ++ "/" ++ name) = .ok c →
          ∃ fd, st.files (joinDir "" ds ++ "/" ++ name) = some fd ∧ fd.content = c) := by
  obtain ⟨st, res, hrun, spec⟩ := loadJSONFiles_spec env n "json" "" LoadState.empty hdepth
  have hinv := loadJSONFiles_inv env n "json" "" _ st res LoadInv_empty hrun
  have hcontent : ∀ ds name fd, st.files (joinDir "" ds ++ "/" ++ name) = some fd →
      env.jsonFiles.ReadFile (joinDir "json" ds ++ "/" ++ name) = .ok fd.content := by
    intro ds name fd hk
    rcases spec.sound _ fd hk with h1 | ⟨ds1, name1, _, _, h3, h4⟩
    · simp [LoadState.empty, GoMap.empty] at h1
    · rw [path_eq_root_key] at h4 ⊢
      rw [h3]
      exact h4
  refine ⟨st, res, hrun, ?_, spec.error_of_dir, ?_, ?_⟩
  · constructor
    · intro hne
      obtain ⟨err, herr⟩ := Option.ne_none_iff_exists'.mp hne
      obtain ⟨ds, h1, h2⟩ := spec.error_of_dir err herr
      exact ⟨ds, err, h1, h2⟩
    · rintro ⟨ds, err, h1, h2⟩ hres
      obtain ⟨l, h3⟩ := spec.dirs_read hres ds h1
      rw [h3] at h2
      exact absurd h2 (by simp)
  · intro ds name err hread
    have hnone : st.files (joinDir "" ds ++ "/" ++ name) = none := by
      cases hk : st.files (joinDir "" ds ++ "/" ++ name) with
      | none => rfl
      | some fd =>
        have := hcontent ds name fd hk
        rw [hread] at this
        exact absurd this (by simp)
    refine ⟨hnone, ?_⟩
    have := hinv (joinDir "" ds ++ "/" ++ name)
    rw [hnone] at this
    exact this
  · intro hres ds name c hf hs hread
    have hne := spec.loaded hres ds name c hf hs hread
    obtain ⟨fd, hfd⟩ := Option.ne_none_iff_exists'.mp hne
    refine ⟨fd, hfd, ?_⟩
    have := hcontent ds name fd hfd
    rw [hread] at this
    simpa using this.symm

/-- Claim C10 on a bundle with an unreadable file: no error, the file is in neither map,
its sibling is loaded. -/
theorem loader_error_iff_directory_witness :
    depthWithin (sampleWorld brokenFileBundle).jsonFiles 2 "json" = true
    ∧ ∃ st res, loadJSONFiles (sampleWorld brokenFileBundle) 2 "json" "" LoadState.empty
          = some (st, res)
        ∧ res = none
        ∧ st.files "/a/c.json" = none ∧ st.etags "/a/c.json" = none
        ∧ ∃ fd, st.files "/a/b.json" = some fd ∧ fd.content = sampleContent :=
  ⟨by decide,
    match loader_error_iff_directory (sampleWorld brokenFileBundle) 2 (by decide) with
    | ⟨st, res, hrun, _, _, habsent, hloaded⟩ =>
      have hres : res = none := by
        have h1 : (loadJSONFiles (sampleWorld brokenFileBundle) 2 "json" ""
            LoadState.empty).map Prod.snd = some none := by decide
        rw [hrun] at h1
        simpa using h1
      ⟨st, res, hrun, hres,
        (habsent ["a"] "c.json" "read json/a/c.json: input/output error" rfl).1,
        (habsent ["a"] "c.json" "read json/a/c.json: input/output error" rfl).2,
        hloaded hres ["a"] "b.json" sampleContent
          ⟨⟨_, rfl, by decide⟩, ⟨_, rfl, by decide⟩⟩ (by decide) rfl⟩⟩

end CoolifyCDN
